import Mathlib

/-!
Verification development for the `multi-agent-demo` repository.

The Python sources under `src/` are shallowly embedded below: Python strings
are Lean `String`s (manipulated through their `.data` character lists so that
every operation is executable by the kernel), Python dicts are association
lists in insertion order, JSON values are the inductive `JValue`, and
stateful code (the session store file, the config cache) is explicit state
threaded through the operations.  Filesystem facts and subprocess behaviour
enter as explicit parameters.  Machine-level aspects that Python's `json`
module supports but the claims never exercise (floating point numbers,
`\uXXXX` escapes above U+00FF) are outside the model; numbers are integers.
-/

/-! ## String and character helpers

Python string primitives used by the sources, re-implemented over `List Char`
so that concrete evaluation reduces in the kernel. -/

/-- The characters Python's `str.strip()` / `str.isspace()` treat as
whitespace (ASCII portion, which is all the sources ever meet). -/
def pyIsSpace (c : Char) : Bool :=
  c = ' ' || c = '\t' || c = '\n' || c = '\x0d' || c = '\x0b' || c = '\x0c'

/-- Left strip over a character list. -/
def lstripChars (p : Char → Bool) (s : List Char) : List Char :=
  s.dropWhile p

/-- Right strip over a character list. -/
def rstripChars (p : Char → Bool) (s : List Char) : List Char :=
  (s.reverse.dropWhile p).reverse

/-- Python `str.strip()` with no arguments (whitespace both ends). -/
def stripChars (s : List Char) : List Char :=
  rstripChars pyIsSpace (lstripChars pyIsSpace s)

/-- Python `str.strip()` on a `String`. -/
def pyStrip (s : String) : String :=
  String.mk (stripChars s.data)

/-- Python `str.lower()` (ASCII portion; the keyword tables are ASCII). -/
def asciiLower (c : Char) : Char :=
  if 65 ≤ c.toNat ∧ c.toNat ≤ 90 then Char.ofNat (c.toNat + 32) else c

/-- Python `str.lower()` on a `String` (ASCII portion). -/
def pyLower (s : String) : String :=
  String.mk (s.data.map asciiLower)

/-- Whether `pat` occurs as a contiguous substring of `s` (Python `in`). -/
def containsSeq (pat s : List Char) : Bool :=
  match s with
  | [] => decide (pat = [])
  | _ :: rest => decide (pat = s.take pat.length) || containsSeq pat rest

/-- Python `pat in s` on `String`s. -/
def pyContains (s pat : String) : Bool :=
  containsSeq pat.data s.data

/-- Whether `s` starts with `p` (Python `str.startswith`). -/
def startsWithChars (p s : List Char) : Bool :=
  decide (s.take p.length = p)

/-- Python `sep.join(parts)`. -/
def joinSep (sep : String) : List String → String
  | [] => ""
  | [x] => x
  | x :: rest => x ++ sep ++ joinSep sep rest

theorem length_dropWhile_le' (p : Char → Bool) (s : List Char) :
    (s.dropWhile p).length ≤ s.length := by
  induction s with
  | nil => simp [List.dropWhile]
  | cons c rest ih =>
      simp only [List.dropWhile]
      by_cases h : p c
      · simp only [h]; simpa using Nat.le_succ_of_le ih
      · simp [h]

/-- Worker for `splitWs`: `cur` holds the current word reversed. -/
def splitWsGo (cur : List Char) : List Char → List String
  | [] => if cur.isEmpty then [] else [String.mk cur.reverse]
  | c :: rest =>
      if pyIsSpace c then
        if cur.isEmpty then splitWsGo [] rest
        else String.mk cur.reverse :: splitWsGo [] rest
      else splitWsGo (c :: cur) rest

/-- Python `str.split()` with no argument: split on whitespace runs,
dropping empty pieces. -/
def splitWs (s : List Char) : List String :=
  splitWsGo [] s

/-- Code-point lexicographic strict order on character lists (Python `<` on
`str`, which `sorted` uses). -/
def ltChars : List Char → List Char → Bool
  | [], [] => false
  | [], _ :: _ => true
  | _ :: _, [] => false
  | a :: as, b :: bs =>
      if a.toNat < b.toNat then true
      else if b.toNat < a.toNat then false
      else ltChars as bs

/-- Insertion of one string into a sorted list (code-point order). -/
def insertSortedStr (x : String) : List String → List String
  | [] => [x]
  | y :: rest =>
      if ltChars y.data x.data then y :: insertSortedStr x rest
      else x :: y :: rest

/-- Insertion sort on strings, modelling Python `sorted` on `str`. -/
def sortStrings : List String → List String
  | [] => []
  | x :: rest => insertSortedStr x (sortStrings rest)

/-- Worker for `dedupStrings`: skip strings already emitted. -/
def dedupStringsGo (seen : List String) : List String → List String
  | [] => []
  | x :: rest =>
      if seen.contains x then dedupStringsGo seen rest
      else x :: dedupStringsGo (x :: seen) rest

/-- De-duplication keeping first occurrences, modelling `set(...)` where only
the member set matters downstream. -/
def dedupStrings (l : List String) : List String :=
  dedupStringsGo [] l

/-! ## JSON / Python value model

`JValue` models the values produced by Python's `json` module: objects
(`JObj`) are key/value sequences in insertion order (Python dicts), arrays
(`JArr`) are value sequences, numbers are integers (the claims never
exercise floats).  The mutual presentation keeps every recursion structural
so that the kernel can evaluate the model on concrete inputs.  `JValue`
doubles as the model of generic Python data (config records, session store
contents). -/

mutual
inductive JValue where
  | jnull : JValue
  | jbool : Bool → JValue
  | jnum : Int → JValue
  | jstr : String → JValue
  | jarr : JArr → JValue
  | jobj : JObj → JValue

inductive JArr where
  | nil : JArr
  | cons : JValue → JArr → JArr

inductive JObj where
  | nil : JObj
  | cons : String → JValue → JObj → JObj
end

/-- The elements of an array as a `List`. -/
def JArr.toList : JArr → List JValue
  | .nil => []
  | .cons v rest => v :: rest.toList

/-- An array from a `List` of values. -/
def JArr.ofList : List JValue → JArr
  | [] => .nil
  | v :: rest => .cons v (JArr.ofList rest)

/-- The members of an object as a `List` of pairs, in insertion order. -/
def JObj.toList : JObj → List (String × JValue)
  | .nil => []
  | .cons k v rest => (k, v) :: rest.toList

/-- An object from a `List` of pairs. -/
def JObj.ofList : List (String × JValue) → JObj
  | [] => .nil
  | (k, v) :: rest => .cons k v (JObj.ofList rest)

/-- Python `dict.get(key)`: first (unique) binding of `key`. -/
def dictGet (d : JObj) (key : String) : Option JValue :=
  match d with
  | .nil => none
  | .cons k v rest => if k = key then some v else dictGet rest key

/-- Python `dict[key] = value`: replace in place, else append. -/
def dictSet (d : JObj) (key : String) (value : JValue) : JObj :=
  match d with
  | .nil => .cons key value .nil
  | .cons k v rest =>
      if k = key then .cons k value rest else .cons k v (dictSet rest key value)

/-- Python `del dict[key]` (no-op when absent, as used by the sources). -/
def dictDel (d : JObj) (key : String) : JObj :=
  match d with
  | .nil => .nil
  | .cons k v rest => if k = key then rest else .cons k v (dictDel rest key)

/-- The keys of a dict in insertion order. -/
def dictKeys (d : JObj) : List String :=
  match d with
  | .nil => []
  | .cons k _ rest => k :: dictKeys rest

/-- The number of members of a dict (`len`). -/
def JObj.length : JObj → Nat
  | .nil => 0
  | .cons _ _ rest => 1 + rest.length

mutual
/-- `copy.deepcopy` on a value: a structurally fresh, value-equal clone. -/
def deep_copy : JValue → JValue
  | .jnull => .jnull
  | .jbool b => .jbool b
  | .jnum n => .jnum n
  | .jstr s => .jstr s
  | .jarr xs => .jarr (deepCopyArr xs)
  | .jobj fs => .jobj (deepCopyObj fs)

def deepCopyArr : JArr → JArr
  | .nil => .nil
  | .cons x xs => .cons (deep_copy x) (deepCopyArr xs)

def deepCopyObj : JObj → JObj
  | .nil => .nil
  | .cons k v rest => .cons k (deep_copy v) (deepCopyObj rest)
end

mutual
/-- Python `==` on JSON values: dict comparison ignores insertion order
(same size, and every key of the left dict maps to an equal value in the
right one). -/
def pyEq : JValue → JValue → Bool
  | .jnull, .jnull => true
  | .jbool a, .jbool b => a = b
  | .jnum a, .jnum b => a = b
  | .jstr a, .jstr b => a = b
  | .jarr a, .jarr b => pyEqArr a b
  | .jobj a, .jobj b => decide (a.length = b.length) && pyEqObj a b
  | _, _ => false

def pyEqArr : JArr → JArr → Bool
  | .nil, .nil => true
  | .cons x xs, .cons y ys => pyEq x y && pyEqArr xs ys
  | _, _ => false

/-- Each member of the first dict also in the second with an equal value. -/
def pyEqObj : JObj → JObj → Bool
  | .nil, _ => true
  | .cons k v rest, b =>
      (match dictGet b k with
       | some w => pyEq v w
       | none => false) && pyEqObj rest b
end

mutual
/-- Well-formedness: every object has pairwise distinct keys, at all
depths.  Python dicts satisfy this by construction; the sequence embedding
states it as an invariant. -/
def wfJ : JValue → Bool
  | .jnull => true
  | .jbool _ => true
  | .jnum _ => true
  | .jstr _ => true
  | .jarr xs => wfJArr xs
  | .jobj fs => decide (dictKeys fs).Nodup && wfJObj fs

def wfJArr : JArr → Bool
  | .nil => true
  | .cons x xs => wfJ x && wfJArr xs

def wfJObj : JObj → Bool
  | .nil => true
  | .cons _ v rest => wfJ v && wfJObj rest
end

/-! ## Compact JSON serialization

Models `json.dumps(value, ensure_ascii=False, separators=(",", ":"))`:
no whitespace, short escapes for the named control characters, `\u00XX`
for the remaining ones, everything else verbatim. -/

/-- Decimal digit character. -/
def digitChar (d : Nat) : Char := Char.ofNat (48 + d)

/-- Lower-case hexadecimal digit character. -/
def hexDigitChar (d : Nat) : Char :=
  if d < 10 then Char.ofNat (48 + d) else Char.ofNat (87 + d)

/-- Fuelled worker for `printNat`; the fuel strictly exceeds the value, and
the value shrinks by a factor of ten per step, so it never runs out. -/
def printNatAux : Nat → Nat → List Char
  | 0, _ => []
  | fuel + 1, n =>
      if n < 10 then [digitChar n]
      else printNatAux fuel (n / 10) ++ [digitChar (n % 10)]

/-- Decimal print of a natural number (`str` on a non-negative int). -/
def printNat (n : Nat) : List Char :=
  printNatAux (n + 1) n

/-- Decimal print of an integer (`str` on an int). -/
def printInt (i : Int) : List Char :=
  if i < 0 then '-' :: printNat (-i).toNat else printNat i.toNat

/-- The JSON escape of one character (`ensure_ascii=False`). -/
def encodeStringChar (c : Char) : List Char :=
  if c = '"' then ['\\', '"']
  else if c = '\\' then ['\\', '\\']
  else if c = '\n' then ['\\', 'n']
  else if c = '\x0d' then ['\\', 'r']
  else if c = '\t' then ['\\', 't']
  else if c = '\x08' then ['\\', 'b']
  else if c = '\x0c' then ['\\', 'f']
  else if c.toNat < 32 then
    ['\\', 'u', '0', '0', hexDigitChar (c.toNat / 16), hexDigitChar (c.toNat % 16)]
  else [c]

/-- JSON escape of a whole string body (without the surrounding quotes). -/
def encodeStringChars : List Char → List Char
  | [] => []
  | c :: cs => encodeStringChar c ++ encodeStringChars cs

mutual
/-- Compact `json.dumps` of one value. -/
def dumpsJ : JValue → List Char
  | .jnull => ['n', 'u', 'l', 'l']
  | .jbool true => ['t', 'r', 'u', 'e']
  | .jbool false => ['f', 'a', 'l', 's', 'e']
  | .jnum i => printInt i
  | .jstr s => '"' :: (encodeStringChars s.data ++ ['"'])
  | .jarr xs => '[' :: (dumpsJArr xs ++ [']'])
  | .jobj fs => '{' :: (dumpsJObj fs ++ ['}'])

/-- Comma-joined compact dump of array elements. -/
def dumpsJArr : JArr → List Char
  | .nil => []
  | .cons x .nil => dumpsJ x
  | .cons x (.cons y rest) => dumpsJ x ++ ',' :: dumpsJArr (.cons y rest)

/-- Comma-joined compact dump of object members. -/
def dumpsJObj : JObj → List Char
  | .nil => []
  | .cons k v .nil => '"' :: (encodeStringChars k.data ++ '"' :: ':' :: dumpsJ v)
  | .cons k v (.cons k2 v2 rest) =>
      ('"' :: (encodeStringChars k.data ++ '"' :: ':' :: dumpsJ v)) ++
        ',' :: dumpsJObj (.cons k2 v2 rest)
end

/-! ## JSON parsing

Models `json.JSONDecoder().raw_decode`: parse one value at the head of the
text (no leading-whitespace skipping — the collapsing loop skips
explicitly), returning the value and the unconsumed tail.  Strict mode: raw
control characters inside strings are rejected; object keys are strings;
numbers follow the `0 | [1-9][0-9]*` integer grammar (floats are outside the
model).  Recursion into nested values is fuelled; every caller passes fuel
larger than the nesting the text can express. -/

/-- JSON whitespace accepted between tokens by the decoder. -/
def jsonWs (c : Char) : Bool :=
  c = ' ' || c = '\t' || c = '\n' || c = '\x0d'

/-- Decimal digit test. -/
def isDigitC (c : Char) : Bool :=
  48 ≤ c.toNat && c.toNat ≤ 57

/-- Decimal digit value. -/
def digitVal (c : Char) : Nat := c.toNat - 48

/-- Hexadecimal digit test. -/
def isHexC (c : Char) : Bool :=
  isDigitC c || (97 ≤ c.toNat && c.toNat ≤ 102) || (65 ≤ c.toNat && c.toNat ≤ 70)

/-- Hexadecimal digit value. -/
def hexVal (c : Char) : Nat :=
  if isDigitC c then c.toNat - 48
  else if 97 ≤ c.toNat then c.toNat - 87
  else c.toNat - 55

/-- Greedy decimal scan: consume digits, accumulating the value. -/
def parseNatLoop (acc : Nat) : List Char → Nat × List Char
  | [] => (acc, [])
  | c :: cs =>
      if isDigitC c then parseNatLoop (acc * 10 + digitVal c) cs
      else (acc, c :: cs)

/-- Match a literal continuation (`ull`, `rue`, `alse`). -/
def expectLit (lit s : List Char) : Option (List Char) :=
  if startsWithChars lit s then some (s.drop lit.length) else none

/-- Scan a string body up to the closing quote, decoding escapes.
`acc` holds the decoded characters in reverse. -/
def parseStringBody : List Char → List Char → Option (List Char × List Char)
  | [], _ => none
  | c :: rest, acc =>
      if c = '"' then some (acc.reverse, rest)
      else if c = '\\' then
        match rest with
        | [] => none
        | e :: rest2 =>
            if e = '"' then parseStringBody rest2 ('"' :: acc)
            else if e = '\\' then parseStringBody rest2 ('\\' :: acc)
            else if e = '/' then parseStringBody rest2 ('/' :: acc)
            else if e = 'b' then parseStringBody rest2 ('\x08' :: acc)
            else if e = 'f' then parseStringBody rest2 ('\x0c' :: acc)
            else if e = 'n' then parseStringBody rest2 ('\n' :: acc)
            else if e = 'r' then parseStringBody rest2 ('\x0d' :: acc)
            else if e = 't' then parseStringBody rest2 ('\t' :: acc)
            else if e = 'u' then
              match rest2 with
              | h1 :: h2 :: h3 :: h4 :: rest3 =>
                  if isHexC h1 && isHexC h2 && isHexC h3 && isHexC h4 then
                    parseStringBody rest3
                      (Char.ofNat
                        (hexVal h1 * 4096 + hexVal h2 * 256 +
                          hexVal h3 * 16 + hexVal h4) :: acc)
                  else none
              | _ => none
            else none
      else if c.toNat < 32 then none
      else parseStringBody rest (c :: acc)

/-- Build a dict from parsed pairs: duplicate keys keep the first position
and the last value, as Python's `dict(pairs)` does. -/
def buildDict (pairs : List (String × JValue)) : JObj :=
  pairs.foldl (fun d kv => dictSet d kv.1 kv.2) .nil

/-- Whether a character list starts with the given character. -/
def headIs (s : List Char) (c : Char) : Bool :=
  match s with
  | [] => false
  | d :: _ => d = c

/-- The digits after a leading minus sign (`-0` or `-[1-9][0-9]*`). -/
def parseNegNum (rest : List Char) : Option (JValue × List Char) :=
  match rest with
  | d :: rest2 =>
      if d = '0' then some (.jnum 0, rest2)
      else if isDigitC d then
        let nr := parseNatLoop (digitVal d) rest2
        some (.jnum (-(Int.ofNat nr.1)), nr.2)
      else none
  | [] => none

/-- A quoted string as a value. -/
def parseStrValue (rest : List Char) : Option (JValue × List Char) :=
  match parseStringBody rest [] with
  | some (cs, r) => some (.jstr (String.mk cs), r)
  | none => none

mutual
/-- Parse one JSON value at the head of the text. -/
def parseValue : Nat → List Char → Option (JValue × List Char)
  | 0, _ => none
  | _ + 1, [] => none
  | fuel + 1, c :: rest =>
      if c = 'n' then
        (expectLit ['u', 'l', 'l'] rest).map (fun r => (.jnull, r))
      else if c = 't' then
        (expectLit ['r', 'u', 'e'] rest).map (fun r => (.jbool true, r))
      else if c = 'f' then
        (expectLit ['a', 'l', 's', 'e'] rest).map (fun r => (.jbool false, r))
      else if c = '"' then parseStrValue rest
      else if c = '[' then
        let t1 := rest.dropWhile jsonWs
        if headIs t1 ']' then some (.jarr .nil, t1.tail)
        else
          match parseElems fuel t1 with
          | some (vs, r) => some (.jarr (JArr.ofList vs), r)
          | none => none
      else if c = '{' then
        let t1 := rest.dropWhile jsonWs
        if headIs t1 '}' then some (.jobj .nil, t1.tail)
        else
          match parseFields fuel t1 with
          | some (pairs, r) => some (.jobj (buildDict pairs), r)
          | none => none
      else if c = '-' then parseNegNum rest
      else if c = '0' then some (.jnum 0, rest)
      else if isDigitC c then
        let nr := parseNatLoop (digitVal c) rest
        some (.jnum (Int.ofNat nr.1), nr.2)
      else none

/-- Parse a nonempty comma-separated element list up to `]`. -/
def parseElems : Nat → List Char → Option (List JValue × List Char)
  | 0, _ => none
  | fuel + 1, s =>
      match parseValue fuel s with
      | none => none
      | some (v, r1) =>
          let r := r1.dropWhile jsonWs
          if headIs r ',' then
            match parseElems fuel (r.tail.dropWhile jsonWs) with
            | some (vs, r3) => some (v :: vs, r3)
            | none => none
          else if headIs r ']' then some ([v], r.tail)
          else none

/-- Parse a nonempty `"key": value` member list up to `}`, returning the
raw pairs in textual order. -/
def parseFields : Nat → List Char → Option (List (String × JValue) × List Char)
  | 0, _ => none
  | fuel + 1, s =>
      if headIs s '"' then
        match parseStringBody s.tail [] with
        | none => none
        | some (keyChars, r1) =>
            let r2 := r1.dropWhile jsonWs
            if headIs r2 ':' then
              match parseValue fuel (r2.tail.dropWhile jsonWs) with
              | none => none
              | some (v, r3) =>
                  let r4 := r3.dropWhile jsonWs
                  if headIs r4 ',' then
                    match parseFields fuel (r4.tail.dropWhile jsonWs) with
                    | some (pairs, r5) =>
                        some ((String.mk keyChars, v) :: pairs, r5)
                    | none => none
                  else if headIs r4 '}' then
                    some ([(String.mk keyChars, v)], r4.tail)
                  else none
            else none
      else none
end

/-! ## Protocol collapsing (`src/providers/claude_minimax.py`) -/

/-- The scanning loop of `_collapse_repeated_json_objects`: skip Python
whitespace, decode one value, repeat; `none` models the `JSONDecodeError`
early return.  Fuel bounds the iteration count; callers pass more fuel than
there are characters, and a successful decode always consumes at least one
character, so the fuel never runs out on reachable inputs. -/
def parseConcatValues : Nat → List Char → Option (List JValue)
  | 0, _ => none
  | fuel + 1, s =>
      match s.dropWhile pyIsSpace with
      | [] => some []
      | c :: rest =>
          match parseValue ((c :: rest).length + 1) (c :: rest) with
          | none => none
          | some (v, remaining) =>
              match parseConcatValues fuel remaining with
              | some vs => some (v :: vs)
              | none => none

/-- `_collapse_repeated_json_objects` from
`src/providers/claude_minimax.py`: strip the text; decode the whole text as
a sequence of JSON values; when it is two or more copies of one value
(Python `==`), return the compact `json.dumps` of the first; otherwise
return the stripped text. -/
def collapse_repeated_json_objects (text : List Char) : List Char :=
  let normalized := stripChars text
  if normalized.isEmpty then []
  else
    match parseConcatValues (normalized.length + 1) normalized with
    | none => normalized
    | some [] => normalized
    | some [_] => normalized
    | some (first :: second :: others) =>
        if (second :: others).all (fun item => pyEq item first) then
          dumpsJ first
        else normalized

/-! ## Parser completeness on serialized output

`parseValue` run on `dumpsJ v ++ rest` recovers `v` and `rest`, provided the
fuel covers the recursion and — when `v` is a number — `rest` does not begin
with a digit (exactly the boundary Python's number grammar needs). -/

mutual
/-- Recursion weight: enough fuel to parse a value's serialization. -/
def jweight : JValue → Nat
  | .jnull => 1
  | .jbool _ => 1
  | .jnum _ => 1
  | .jstr _ => 1
  | .jarr xs => 1 + jweightArr xs
  | .jobj fs => 1 + jweightObj fs

def jweightArr : JArr → Nat
  | .nil => 0
  | .cons x xs => 1 + jweight x + jweightArr xs

def jweightObj : JObj → Nat
  | .nil => 0
  | .cons _ v rest => 1 + jweight v + jweightObj rest
end

/-- The boundary condition for parsing `dumpsJ v` followed by `rest`: a
nonzero number must not be followed immediately by a digit. -/
def delimOk : JValue → List Char → Bool
  | .jnum i, c :: _ => decide (i = 0) || !isDigitC c
  | _, _ => true

theorem digitChar_spec (d : Nat) (hd : d < 10) :
    isDigitC (digitChar d) = true ∧ digitVal (digitChar d) = d := by
  interval_cases d <;> exact ⟨by decide, by decide⟩

theorem digitChar_isDigit (d : Nat) (hd : d < 10) :
    isDigitC (digitChar d) = true := (digitChar_spec d hd).1

theorem digitChar_val (d : Nat) (hd : d < 10) :
    digitVal (digitChar d) = d := (digitChar_spec d hd).2

theorem hexDigitChar_spec (d : Nat) (hd : d < 16) :
    isHexC (hexDigitChar d) = true ∧ hexVal (hexDigitChar d) = d := by
  interval_cases d <;> exact ⟨by decide, by decide⟩

theorem printNatAux_congr :
    ∀ n f g, n < f → n < g → printNatAux f n = printNatAux g n := by
  intro n
  induction n using Nat.strong_induction_on with
  | _ n ih =>
      intro f g hf hg
      match f, g with
      | f' + 1, g' + 1 =>
          simp only [printNatAux]
          by_cases h : n < 10
          · simp [h]
          · have hdiv : n / 10 < n := Nat.div_lt_self (by omega) (by omega)
            have h1 : n / 10 < f' := by
              have : n / 10 + 1 ≤ n := Nat.succ_le_of_lt hdiv
              omega
            have h2 : n / 10 < g' := by
              have : n / 10 + 1 ≤ n := Nat.succ_le_of_lt hdiv
              omega
            simp [h, ih (n / 10) hdiv f' g' h1 h2]

theorem printNat_lt10 (n : Nat) (h : n < 10) : printNat n = [digitChar n] := by
  simp [printNat, printNatAux, h]

theorem printNat_ge10 (n : Nat) (h : 10 ≤ n) :
    printNat n = printNat (n / 10) ++ [digitChar (n % 10)] := by
  have hdiv : n / 10 < n := Nat.div_lt_self (by omega) (by omega)
  have h1 : printNat n = printNatAux n (n / 10) ++ [digitChar (n % 10)] := by
    show printNatAux (n + 1) n = _
    simp only [printNatAux]
    have hn : ¬ n < 10 := by omega
    simp [hn]
  rw [h1, printNatAux_congr (n / 10) n (n / 10 + 1) hdiv (by omega)]
  rfl

theorem printNat_ne_nil (n : Nat) : printNat n ≠ [] := by
  by_cases h : n < 10
  · simp [printNat_lt10 n h]
  · rw [printNat_ge10 n (by omega)]
    simp

theorem printNat_head (n : Nat) :
    ∃ d t, printNat n = digitChar d :: t ∧ d < 10 ∧ (1 ≤ n → 1 ≤ d) := by
  induction n using Nat.strong_induction_on with
  | _ n ih =>
      by_cases h : n < 10
      · exact ⟨n, [], by simp [printNat_lt10 n h], h, fun h1 => h1⟩
      · have hdiv : n / 10 < n := Nat.div_lt_self (by omega) (by omega)
        obtain ⟨d, t, heq, hd, hpos⟩ := ih (n / 10) hdiv
        refine ⟨d, t ++ [digitChar (n % 10)], ?_, hd, ?_⟩
        · rw [printNat_ge10 n (by omega), heq]; simp
        · intro _
          exact hpos (by omega)

theorem parseNatLoop_printNat :
    ∀ n acc rest,
      parseNatLoop acc (printNat n ++ rest) =
        parseNatLoop (acc * 10 ^ (printNat n).length + n) rest := by
  intro n
  induction n using Nat.strong_induction_on with
  | _ n ih =>
      intro acc rest
      by_cases h : n < 10
      · rw [printNat_lt10 n h]
        simp only [List.cons_append, List.nil_append, parseNatLoop,
          digitChar_isDigit n h, if_true, digitChar_val n h, List.length_cons,
          List.length_nil, pow_one]
        simp
      · have hdiv : n / 10 < n := Nat.div_lt_self (by omega) (by omega)
        rw [printNat_ge10 n (by omega)]
        rw [List.append_assoc]
        rw [ih (n / 10) hdiv acc _]
        have hd : n % 10 < 10 := Nat.mod_lt n (by omega)
        simp only [List.cons_append, List.nil_append, parseNatLoop,
          digitChar_isDigit _ hd, if_true, digitChar_val _ hd]
        have hlen : (printNat (n / 10) ++ [digitChar (n % 10)]).length =
            (printNat (n / 10)).length + 1 := by simp
        rw [hlen, pow_succ]
        have hmod : 10 * (n / 10) + n % 10 = n := Nat.div_add_mod n 10
        congr 1
        have : acc * (10 ^ (printNat (n / 10)).length * 10) =
            acc * 10 ^ (printNat (n / 10)).length * 10 := by ring
        omega

/-- Head-of-tail digit test used as the number boundary. -/
def headNotDigit : List Char → Bool
  | [] => true
  | c :: _ => !isDigitC c

theorem parseNatLoop_stop (n : Nat) (rest : List Char)
    (h : headNotDigit rest = true) : parseNatLoop n rest = (n, rest) := by
  cases rest with
  | nil => simp [parseNatLoop]
  | cons c t =>
      simp only [headNotDigit, Bool.not_eq_true'] at h
      simp [parseNatLoop, h]

theorem parseNatLoop_complete (n : Nat) (rest : List Char)
    (h : headNotDigit rest = true) :
    parseNatLoop 0 (printNat n ++ rest) = (n, rest) := by
  rw [parseNatLoop_printNat n 0 rest]
  simpa using parseNatLoop_stop n rest h

theorem psb_quote (rest acc : List Char) :
    parseStringBody ('"' :: rest) acc = some (acc.reverse, rest) := by
  rw [parseStringBody.eq_def]; simp

theorem psb_esc_quote (t acc : List Char) :
    parseStringBody ('\\' :: '"' :: t) acc = parseStringBody t ('"' :: acc) := by
  rw [parseStringBody.eq_def]; simp

theorem psb_esc_back (t acc : List Char) :
    parseStringBody ('\\' :: '\\' :: t) acc = parseStringBody t ('\\' :: acc) := by
  rw [parseStringBody.eq_def]; simp

theorem psb_esc_n (t acc : List Char) :
    parseStringBody ('\\' :: 'n' :: t) acc = parseStringBody t ('\n' :: acc) := by
  rw [parseStringBody.eq_def]; simp

theorem psb_esc_r (t acc : List Char) :
    parseStringBody ('\\' :: 'r' :: t) acc = parseStringBody t ('\x0d' :: acc) := by
  rw [parseStringBody.eq_def]; simp

theorem psb_esc_t (t acc : List Char) :
    parseStringBody ('\\' :: 't' :: t) acc = parseStringBody t ('\t' :: acc) := by
  rw [parseStringBody.eq_def]; simp

theorem psb_esc_b (t acc : List Char) :
    parseStringBody ('\\' :: 'b' :: t) acc = parseStringBody t ('\x08' :: acc) := by
  rw [parseStringBody.eq_def]; simp

theorem psb_esc_f (t acc : List Char) :
    parseStringBody ('\\' :: 'f' :: t) acc = parseStringBody t ('\x0c' :: acc) := by
  rw [parseStringBody.eq_def]; simp

theorem psb_esc_u00 (c : Char) (h : c.toNat < 32) (t acc : List Char) :
    parseStringBody
      ('\\' :: 'u' :: '0' :: '0' ::
        hexDigitChar (c.toNat / 16) :: hexDigitChar (c.toNat % 16) :: t) acc =
      parseStringBody t (c :: acc) := by
  have hhi : c.toNat / 16 < 16 := by omega
  have hlo : c.toNat % 16 < 16 := by
    have := Nat.mod_lt c.toNat (show 0 < 16 by omega)
    omega
  obtain ⟨hhex1, hval1⟩ := hexDigitChar_spec _ hhi
  obtain ⟨hhex2, hval2⟩ := hexDigitChar_spec _ hlo
  have hcode : hexVal '0' * 4096 + hexVal '0' * 256 +
      c.toNat / 16 * 16 + c.toNat % 16 = c.toNat := by
    have h16 : 16 * (c.toNat / 16) + c.toNat % 16 = c.toNat :=
      Nat.div_add_mod c.toNat 16
    have hz : hexVal '0' = 0 := by decide
    rw [hz]
    omega
  rw [parseStringBody.eq_def]
  simp only [hhex1, hhex2, hval1, hval2]
  norm_num
  simp [show isHexC '0' = true from by decide, hcode, Char.ofNat_toNat]

theorem psb_ordinary (c : Char) (h1 : ¬ c = '"') (h2 : ¬ c = '\\')
    (h3 : ¬ c.toNat < 32) (t acc : List Char) :
    parseStringBody (c :: t) acc = parseStringBody t (c :: acc) := by
  rw [parseStringBody.eq_def]
  simp [h1, h2, h3]

theorem parseStringBody_encode :
    ∀ cs acc rest,
      parseStringBody (encodeStringChars cs ++ ('"' :: rest)) acc =
        some (acc.reverse ++ cs, rest) := by
  intro cs
  induction cs with
  | nil =>
      intro acc rest
      rw [encodeStringChars, List.nil_append, psb_quote]
      simp
  | cons c cs ih =>
      intro acc rest
      simp only [encodeStringChars, List.append_assoc]
      simp only [encodeStringChar]
      split_ifs with h1 h2 h3 h4 h5 h6 h7 h8
      · subst h1; simp only [List.cons_append, List.nil_append]
        rw [psb_esc_quote, ih]; simp
      · subst h2; simp only [List.cons_append, List.nil_append]
        rw [psb_esc_back, ih]; simp
      · subst h3; simp only [List.cons_append, List.nil_append]
        rw [psb_esc_n, ih]; simp
      · subst h4; simp only [List.cons_append, List.nil_append]
        rw [psb_esc_r, ih]; simp
      · subst h5; simp only [List.cons_append, List.nil_append]
        rw [psb_esc_t, ih]; simp
      · subst h6; simp only [List.cons_append, List.nil_append]
        rw [psb_esc_b, ih]; simp
      · subst h7; simp only [List.cons_append, List.nil_append]
        rw [psb_esc_f, ih]; simp
      · simp only [List.cons_append, List.nil_append]
        rw [psb_esc_u00 c h8, ih]; simp
      · simp only [List.cons_append, List.nil_append]
        rw [psb_ordinary c h1 h2 h8, ih]; simp

theorem isDigitC_ne (c : Char) (h : isDigitC c = true) :
    c ≠ 'n' ∧ c ≠ 't' ∧ c ≠ 'f' ∧ c ≠ '"' ∧ c ≠ '[' ∧ c ≠ '{' ∧ c ≠ '-' ∧
      c ≠ ']' ∧ c ≠ '}' ∧ c ≠ ',' ∧ c ≠ ':' := by
  refine ⟨?_, ?_, ?_, ?_, ?_, ?_, ?_, ?_, ?_, ?_, ?_⟩ <;>
    (intro heq; subst heq; revert h; decide)

theorem isDigitC_not_ws (c : Char) (h : isDigitC c = true) :
    jsonWs c = false ∧ pyIsSpace c = false := by
  have h1 : c ≠ ' ' := by intro heq; subst heq; revert h; decide
  have h2 : c ≠ '\t' := by intro heq; subst heq; revert h; decide
  have h3 : c ≠ '\n' := by intro heq; subst heq; revert h; decide
  have h4 : c ≠ '\x0d' := by intro heq; subst heq; revert h; decide
  have h5 : c ≠ '\x0b' := by intro heq; subst heq; revert h; decide
  have h6 : c ≠ '\x0c' := by intro heq; subst heq; revert h; decide
  constructor
  · simp [jsonWs, h1, h2, h3, h4]
  · simp [pyIsSpace, h1, h2, h3, h4, h5, h6]

/-- The characters a compact dump can start with. -/
def goodStart (c : Char) : Prop :=
  c = '[' ∨ c = '{' ∨ c = '"' ∨ c = 'n' ∨ c = 't' ∨ c = 'f' ∨ c = '-' ∨
    isDigitC c = true

theorem goodStart_facts (c : Char) (h : goodStart c) :
    jsonWs c = false ∧ pyIsSpace c = false ∧ c ≠ ']' ∧ c ≠ '}' ∧ c ≠ ',' := by
  rcases h with h | h | h | h | h | h | h | h
  · subst h; refine ⟨by decide, by decide, by decide, by decide, by decide⟩
  · subst h; refine ⟨by decide, by decide, by decide, by decide, by decide⟩
  · subst h; refine ⟨by decide, by decide, by decide, by decide, by decide⟩
  · subst h; refine ⟨by decide, by decide, by decide, by decide, by decide⟩
  · subst h; refine ⟨by decide, by decide, by decide, by decide, by decide⟩
  · subst h; refine ⟨by decide, by decide, by decide, by decide, by decide⟩
  · subst h; refine ⟨by decide, by decide, by decide, by decide, by decide⟩
  · obtain ⟨hw1, hw2⟩ := isDigitC_not_ws c h
    obtain ⟨-, -, -, -, -, -, -, h8, h9, h10, -⟩ := isDigitC_ne c h
    exact ⟨hw1, hw2, h8, h9, h10⟩

theorem printInt_head (i : Int) :
    ∃ c t, printInt i = c :: t ∧ (c = '-' ∨ isDigitC c = true) := by
  by_cases h : i < 0
  · exact ⟨'-', printNat (-i).toNat, by simp [printInt, h], Or.inl rfl⟩
  · obtain ⟨d, t, heq, hd, -⟩ := printNat_head i.toNat
    exact ⟨digitChar d, t, by simp [printInt, h, heq],
      Or.inr (digitChar_isDigit d hd)⟩

theorem dumpsJ_head (v : JValue) :
    ∃ c t, dumpsJ v = c :: t ∧ goodStart c := by
  cases v with
  | jnull => exact ⟨'n', _, rfl, by simp [goodStart]⟩
  | jbool b =>
      cases b with
      | true => exact ⟨'t', _, rfl, by simp [goodStart]⟩
      | false => exact ⟨'f', _, rfl, by simp [goodStart]⟩
  | jnum i =>
      obtain ⟨c, t, heq, hc⟩ := printInt_head i
      refine ⟨c, t, by simp [dumpsJ, heq], ?_⟩
      rcases hc with hc | hc
      · subst hc; simp [goodStart]
      · simp [goodStart, hc]
  | jstr s => exact ⟨'"', _, rfl, by simp [goodStart]⟩
  | jarr xs => exact ⟨'[', _, rfl, by simp [goodStart]⟩
  | jobj fs => exact ⟨'{', _, rfl, by simp [goodStart]⟩

theorem expectLit_self (lit rest : List Char) :
    expectLit lit (lit ++ rest) = some rest := by
  have h1 : (lit ++ rest).take lit.length = lit := by
    induction lit with
    | nil => simp
    | cons c cs ih => simp [ih]
  have h2 : (lit ++ rest).drop lit.length = rest := by
    induction lit with
    | nil => simp
    | cons c cs ih => simp [ih]
  simp [expectLit, startsWithChars, h1, h2]

theorem dropWhile_cons_neg (p : Char → Bool) (c : Char) (t : List Char)
    (h : p c = false) : (c :: t).dropWhile p = c :: t := by
  simp [List.dropWhile, h]

/-- Mutual structural induction for `JValue`/`JArr`/`JObj`. -/
theorem jmutual_ind (P : JValue → Prop) (A : JArr → Prop) (O : JObj → Prop)
    (hnull : P .jnull) (hbool : ∀ b, P (.jbool b)) (hnum : ∀ n, P (.jnum n))
    (hstr : ∀ s, P (.jstr s)) (harr : ∀ xs, A xs → P (.jarr xs))
    (hobj : ∀ fs, O fs → P (.jobj fs)) (hanil : A .nil)
    (hacons : ∀ v xs, P v → A xs → A (.cons v xs)) (honil : O .nil)
    (hocons : ∀ k v fs, P v → O fs → O (.cons k v fs)) :
    (∀ v, P v) ∧ (∀ xs, A xs) ∧ (∀ fs, O fs) :=
  ⟨fun v => @JValue.rec P A O hnull hbool hnum hstr harr hobj hanil hacons
      honil hocons v,
    fun xs => @JArr.rec P A O hnull hbool hnum hstr harr hobj hanil hacons
      honil hocons xs,
    fun fs => @JObj.rec P A O hnull hbool hnum hstr harr hobj hanil hacons
      honil hocons fs⟩

/-- List-like induction for `JObj` alone. -/
theorem jobj_ind (O : JObj → Prop) (nil : O .nil)
    (cons : ∀ k v fs, O fs → O (.cons k v fs)) : ∀ fs, O fs :=
  (jmutual_ind (fun _ => True) (fun _ => True) O trivial (fun _ => trivial)
    (fun _ => trivial) (fun _ => trivial) (fun _ _ => trivial)
    (fun _ _ => trivial) trivial (fun _ _ _ _ => trivial) nil
    (fun k v fs _ h => cons k v fs h)).2.2

/-- List-like induction for `JArr` alone. -/
theorem jarr_ind (A : JArr → Prop) (nil : A .nil)
    (cons : ∀ v xs, A xs → A (.cons v xs)) : ∀ xs, A xs :=
  (jmutual_ind (fun _ => True) A (fun _ => True) trivial (fun _ => trivial)
    (fun _ => trivial) (fun _ => trivial) (fun _ _ => trivial)
    (fun _ _ => trivial) nil (fun v xs _ h => cons v xs h) trivial
    (fun _ _ _ _ _ => trivial)).2.1

/-- Object concatenation (used only to state `buildDict` facts). -/
def JObj.cat : JObj → JObj → JObj
  | .nil, b => b
  | .cons k v rest, b => .cons k v (rest.cat b)

theorem jobj_cat_nil (fs : JObj) : fs.cat .nil = fs := by
  induction fs using jobj_ind with
  | nil => simp [JObj.cat]
  | cons k v rest ih => simp [JObj.cat, ih]

theorem jobj_cat_assoc (a b c : JObj) : (a.cat b).cat c = a.cat (b.cat c) := by
  induction a using jobj_ind with
  | nil => simp [JObj.cat]
  | cons k v rest ih => simp [JObj.cat, ih]

theorem dictKeys_cat (a b : JObj) :
    dictKeys (a.cat b) = dictKeys a ++ dictKeys b := by
  induction a using jobj_ind with
  | nil => simp [JObj.cat, dictKeys]
  | cons k v rest ih => simp [JObj.cat, dictKeys, ih]

theorem dictSet_fresh (d : JObj) (k : String) (v : JValue)
    (h : k ∉ dictKeys d) : dictSet d k v = d.cat (.cons k v .nil) := by
  induction d using jobj_ind with
  | nil => simp [dictSet, JObj.cat]
  | cons k2 v2 rest ih =>
      simp only [dictKeys, List.mem_cons, not_or] at h
      obtain ⟨h1, h2⟩ := h
      simp only [dictSet, JObj.cat]
      rw [if_neg (fun heq => h1 heq.symm), ih h2]

theorem foldl_dictSet_fresh :
    ∀ (l : List (String × JValue)) (pre : JObj),
      (∀ k ∈ l.map Prod.fst, k ∉ dictKeys pre) →
      (l.map Prod.fst).Nodup →
      l.foldl (fun d kv => dictSet d kv.1 kv.2) pre = pre.cat (JObj.ofList l) := by
  intro l
  induction l with
  | nil =>
      intro pre _ _
      simp [JObj.ofList, jobj_cat_nil]
  | cons kv rest ih =>
      intro pre hfresh hnodup
      obtain ⟨k, v⟩ := kv
      simp only [List.foldl_cons]
      have hk : k ∉ dictKeys pre := hfresh k (by simp)
      rw [dictSet_fresh pre k v hk]
      have hkeys : dictKeys (pre.cat (.cons k v .nil)) = dictKeys pre ++ [k] := by
        simp [dictKeys_cat, dictKeys]
      simp only [List.map_cons, List.nodup_cons] at hnodup
      obtain ⟨hknot, hnodup2⟩ := hnodup
      rw [ih (pre.cat (.cons k v .nil)) ?_ hnodup2]
      · rw [jobj_cat_assoc]
        simp [JObj.cat, JObj.ofList]
      · intro k2 hk2
        rw [hkeys]
        simp only [List.mem_append, List.mem_singleton]
        rintro (hin | hin)
        · exact hfresh k2 (by simp [hk2]) hin
        · subst hin
          exact hknot hk2

theorem dictKeys_toList (fs : JObj) :
    fs.toList.map Prod.fst = dictKeys fs := by
  induction fs using jobj_ind with
  | nil => simp [JObj.toList, dictKeys]
  | cons k v rest ih => simp [JObj.toList, dictKeys, ih]

theorem ofList_toList (fs : JObj) : JObj.ofList fs.toList = fs := by
  induction fs using jobj_ind with
  | nil => simp [JObj.toList, JObj.ofList]
  | cons k v rest ih => simp [JObj.toList, JObj.ofList, ih]

theorem buildDict_nodup (fs : JObj) (h : (dictKeys fs).Nodup) :
    buildDict fs.toList = fs := by
  unfold buildDict
  rw [foldl_dictSet_fresh fs.toList .nil (by simp [dictKeys]) ?_]
  · simp [JObj.cat, ofList_toList]
  · rw [dictKeys_toList]
    exact h

theorem printInt_ne_nil (i : Int) : printInt i ≠ [] := by
  obtain ⟨c, t, heq, -⟩ := printInt_head i
  simp [heq]

theorem jweight_le :
    (∀ v, jweight v ≤ (dumpsJ v).length) ∧
      (∀ xs, jweightArr xs ≤ 1 + (dumpsJArr xs).length) ∧
      (∀ fs, jweightObj fs ≤ 1 + (dumpsJObj fs).length) := by
  refine jmutual_ind _ _ _ ?_ ?_ ?_ ?_ ?_ ?_ ?_ ?_ ?_ ?_
  · simp [jweight, dumpsJ]
  · intro b; cases b <;> simp [jweight, dumpsJ]
  · intro n
    have := printInt_ne_nil n
    have hlen : 1 ≤ (printInt n).length := by
      cases h : printInt n with
      | nil => exact absurd h this
      | cons c t => simp
    simpa [jweight, dumpsJ] using hlen
  · intro s; simp [jweight, dumpsJ]
  · intro xs h; simp [jweight, dumpsJ]; omega
  · intro fs h; simp [jweight, dumpsJ]; omega
  · simp [jweightArr, dumpsJArr]
  · intro v xs hv hxs
    cases xs with
    | nil => simp [jweightArr, dumpsJArr]; omega
    | cons y ys =>
        simp only [jweightArr, dumpsJArr, List.length_append, List.length_cons]
        simp only [jweightArr] at hxs
        omega
  · simp [jweightObj, dumpsJObj]
  · intro k v fs hv hfs
    cases fs with
    | nil => simp [jweightObj, dumpsJObj]; omega
    | cons k2 v2 rest =>
        simp only [jweightObj, dumpsJObj, List.length_append, List.length_cons]
        simp only [jweightObj] at hfs
        omega

theorem dictGet_self (fs : JObj) (h : (dictKeys fs).Nodup) :
    ∀ kv ∈ fs.toList, dictGet fs kv.1 = some kv.2 := by
  induction fs using jobj_ind with
  | nil => simp [JObj.toList]
  | cons k v rest ih =>
      simp only [dictKeys, List.nodup_cons] at h
      obtain ⟨hk, hrest⟩ := h
      intro kv hkv
      simp only [JObj.toList, List.mem_cons] at hkv
      rcases hkv with hkv | hkv
      · subst hkv
        simp [dictGet]
      · have hkey : kv.1 ∈ dictKeys rest := by
          rw [← dictKeys_toList]
          exact List.mem_map_of_mem Prod.fst hkv
        have hne : k ≠ kv.1 := fun heq => hk (heq ▸ hkey)
        simp only [dictGet, if_neg hne]
        exact ih hrest kv hkv

theorem pyEqObj_of_forall (sub full : JObj)
    (h : ∀ kv ∈ sub.toList,
      dictGet full kv.1 = some kv.2 ∧ pyEq kv.2 kv.2 = true) :
    pyEqObj sub full = true := by
  induction sub using jobj_ind with
  | nil => simp [pyEqObj]
  | cons k v rest ih =>
      obtain ⟨hget, heq⟩ := h (k, v) (by simp [JObj.toList])
      simp only [pyEqObj, hget, heq, Bool.true_and]
      exact ih (fun kv hkv => h kv (by simp [JObj.toList, hkv]))

theorem pyEq_refl_wf :
    (∀ v, wfJ v = true → pyEq v v = true) ∧
      (∀ xs, wfJArr xs = true → pyEqArr xs xs = true) ∧
      (∀ fs, wfJObj fs = true →
        ∀ kv ∈ fs.toList, pyEq kv.2 kv.2 = true) := by
  refine jmutual_ind _ _ _ ?_ ?_ ?_ ?_ ?_ ?_ ?_ ?_ ?_ ?_
  · intro _; rfl
  · intro b _; simp [pyEq]
  · intro n _; simp [pyEq]
  · intro s _; simp [pyEq]
  · intro xs ih hwf
    simp only [wfJ] at hwf
    simp [pyEq, ih hwf]
  · intro fs ih hwf
    simp only [wfJ, Bool.and_eq_true, decide_eq_true_eq] at hwf
    obtain ⟨hnodup, hw⟩ := hwf
    simp only [pyEq, Bool.and_eq_true, decide_eq_true_eq, true_and]
    exact pyEqObj_of_forall fs fs (fun kv hkv =>
      ⟨dictGet_self fs hnodup kv hkv, ih hw kv hkv⟩)
  · intro _; rfl
  · intro v xs hv hxs hwf
    simp only [wfJArr, Bool.and_eq_true] at hwf
    simp [pyEqArr, hv hwf.1, hxs hwf.2]
  · intro _; simp [JObj.toList]
  · intro k v fs hv hfs hwf
    simp only [wfJObj, Bool.and_eq_true] at hwf
    intro kv hkv
    simp only [JObj.toList, List.mem_cons] at hkv
    rcases hkv with hkv | hkv
    · subst hkv
      exact hv hwf.1
    · exact hfs hwf.2 kv hkv

theorem pv_null (fuel : Nat) (rest : List Char) :
    parseValue (fuel + 1) ('n' :: 'u' :: 'l' :: 'l' :: rest) =
      some (.jnull, rest) := by
  rw [parseValue.eq_def]
  simp [expectLit, startsWithChars]

theorem pv_true (fuel : Nat) (rest : List Char) :
    parseValue (fuel + 1) ('t' :: 'r' :: 'u' :: 'e' :: rest) =
      some (.jbool true, rest) := by
  rw [parseValue.eq_def]
  simp [expectLit, startsWithChars]

theorem pv_false (fuel : Nat) (rest : List Char) :
    parseValue (fuel + 1) ('f' :: 'a' :: 'l' :: 's' :: 'e' :: rest) =
      some (.jbool false, rest) := by
  rw [parseValue.eq_def]
  simp [expectLit, startsWithChars]

theorem pv_str (fuel : Nat) (body : List Char) :
    parseValue (fuel + 1) ('"' :: body) = parseStrValue body := by
  rw [parseValue.eq_def]
  simp

theorem pv_arr (fuel : Nat) (t : List Char) :
    parseValue (fuel + 1) ('[' :: t) =
      (if headIs (t.dropWhile jsonWs) ']' then
        some (.jarr .nil, (t.dropWhile jsonWs).tail)
      else
        match parseElems fuel (t.dropWhile jsonWs) with
        | some (vs, r) => some (.jarr (JArr.ofList vs), r)
        | none => none) := by
  rw [parseValue.eq_def]
  simp

theorem pv_obj (fuel : Nat) (t : List Char) :
    parseValue (fuel + 1) ('{' :: t) =
      (if headIs (t.dropWhile jsonWs) '}' then
        some (.jobj .nil, (t.dropWhile jsonWs).tail)
      else
        match parseFields fuel (t.dropWhile jsonWs) with
        | some (pairs, r) => some (.jobj (buildDict pairs), r)
        | none => none) := by
  rw [parseValue.eq_def]
  simp

theorem pv_digit (fuel : Nat) (c : Char) (hdig : isDigitC c = true)
    (hne0 : c ≠ '0') (rest : List Char) :
    parseValue (fuel + 1) (c :: rest) =
      some (.jnum (Int.ofNat (parseNatLoop (digitVal c) rest).1),
        (parseNatLoop (digitVal c) rest).2) := by
  obtain ⟨h1, h2, h3, h4, h5, h6, h7, -⟩ := isDigitC_ne c hdig
  rw [parseValue.eq_def]
  simp [h1, h2, h3, h4, h5, h6, h7, hne0, hdig]

theorem pv_zero (fuel : Nat) (rest : List Char) :
    parseValue (fuel + 1) ('0' :: rest) = some (.jnum 0, rest) := by
  rw [parseValue.eq_def]
  simp

theorem pv_neg (fuel : Nat) (c : Char) (hdig : isDigitC c = true)
    (hne0 : c ≠ '0') (rest : List Char) :
    parseValue (fuel + 1) ('-' :: c :: rest) =
      some (.jnum (-(Int.ofNat (parseNatLoop (digitVal c) rest).1)),
        (parseNatLoop (digitVal c) rest).2) := by
  rw [parseValue.eq_def]
  simp [parseNegNum, hne0, hdig]

theorem jweight_pos (v : JValue) : 1 ≤ jweight v := by
  cases v <;> simp [jweight]

theorem jarr_ofList_toList (xs : JArr) : JArr.ofList xs.toList = xs := by
  induction xs using jarr_ind with
  | nil => simp [JArr.toList, JArr.ofList]
  | cons v rest ih => simp [JArr.toList, JArr.ofList, ih]

theorem delimOk_of_head (v : JValue) (c : Char) (r : List Char)
    (h : isDigitC c = false) : delimOk v (c :: r) = true := by
  cases v <;> simp [delimOk, h]

theorem delimOk_num (i : Int) (rest : List Char) (hi : i ≠ 0)
    (h : delimOk (.jnum i) rest = true) : headNotDigit rest = true := by
  cases rest with
  | nil => rfl
  | cons c r =>
      simp only [delimOk, Bool.or_eq_true, decide_eq_true_eq] at h
      rcases h with h | h
      · exact absurd h hi
      · simpa [headNotDigit] using h

theorem dumpsJArr_cons (x : JValue) (ys : JArr) :
    ∃ u, dumpsJArr (.cons x ys) = dumpsJ x ++ u := by
  cases ys with
  | nil => exact ⟨[], by simp [dumpsJArr]⟩
  | cons y rest => exact ⟨',' :: dumpsJArr (.cons y rest), by simp [dumpsJArr]⟩

theorem digitChar_ne_zero (d : Nat) (hd : d < 10) (hpos : 1 ≤ d) :
    digitChar d ≠ '0' := by
  intro heq
  have hval := digitChar_val d hd
  rw [heq] at hval
  have : digitVal '0' = 0 := by decide
  omega

theorem parse_printNat_loop (n d : Nat) (t rest : List Char)
    (heq : printNat n = digitChar d :: t) (hd : d < 10)
    (hrest : headNotDigit rest = true) :
    parseNatLoop (digitVal (digitChar d)) (t ++ rest) = (n, rest) := by
  have h0 : parseNatLoop 0 (printNat n ++ rest) = (n, rest) :=
    parseNatLoop_complete n rest hrest
  rw [heq] at h0
  simp only [List.cons_append, parseNatLoop, digitChar_isDigit d hd,
    if_true, Nat.zero_mul, Nat.zero_add] at h0
  exact h0

theorem dumpsJObj_head (k : String) (v : JValue) (ys : JObj) :
    ∃ w, dumpsJObj (.cons k v ys) = '"' :: w := by
  cases ys with
  | nil => exact ⟨encodeStringChars k.data ++ '"' :: ':' :: dumpsJ v, by
      simp [dumpsJObj]⟩
  | cons k2 v2 r =>
      exact ⟨(encodeStringChars k.data ++ '"' :: ':' :: dumpsJ v) ++
        ',' :: dumpsJObj (.cons k2 v2 r), by simp [dumpsJObj]⟩

theorem dropWhile_jsonWs_dumpsJ (v : JValue) (tail0 : List Char) :
    (dumpsJ v ++ tail0).dropWhile jsonWs = dumpsJ v ++ tail0 := by
  obtain ⟨c, t, hct, hgood⟩ := dumpsJ_head v
  obtain ⟨hws, -, -, -, -⟩ := goodStart_facts c hgood
  rw [hct]
  exact dropWhile_cons_neg jsonWs c _ hws

theorem dropWhile_jsonWs_dumpsJArr (x : JValue) (ys : JArr) (tail0 : List Char) :
    (dumpsJArr (.cons x ys) ++ tail0).dropWhile jsonWs =
      dumpsJArr (.cons x ys) ++ tail0 := by
  obtain ⟨u, hu⟩ := dumpsJArr_cons x ys
  rw [hu, List.append_assoc]
  exact dropWhile_jsonWs_dumpsJ x (u ++ tail0)

theorem dropWhile_jsonWs_dumpsJObj (k : String) (v : JValue) (ys : JObj)
    (tail0 : List Char) :
    (dumpsJObj (.cons k v ys) ++ tail0).dropWhile jsonWs =
      dumpsJObj (.cons k v ys) ++ tail0 := by
  obtain ⟨w, hw⟩ := dumpsJObj_head k v ys
  rw [hw]
  exact dropWhile_cons_neg jsonWs '"' _ (by decide)

theorem headIs_dumpsJ_close (v : JValue) (tail0 : List Char) (c : Char)
    (hc : c = ']' ∨ c = '}' ∨ c = ',') :
    headIs (dumpsJ v ++ tail0) c = false := by
  obtain ⟨c0, t, hct, hgood⟩ := dumpsJ_head v
  obtain ⟨-, -, hb, hb2, hb3⟩ := goodStart_facts c0 hgood
  rw [hct]
  simp only [List.cons_append, headIs]
  rcases hc with hc | hc | hc <;> subst hc
  · simp [hb]
  · simp [hb2]
  · simp [hb3]

theorem headIs_dumpsJArr_close (x : JValue) (ys : JArr) (tail0 : List Char)
    (c : Char) (hc : c = ']' ∨ c = '}' ∨ c = ',') :
    headIs (dumpsJArr (.cons x ys) ++ tail0) c = false := by
  obtain ⟨u, hu⟩ := dumpsJArr_cons x ys
  rw [hu, List.append_assoc]
  exact headIs_dumpsJ_close x (u ++ tail0) c hc

theorem pe_step (fuel : Nat) (s : List Char) :
    parseElems (fuel + 1) s =
      (match parseValue fuel s with
      | none => none
      | some (v, r1) =>
          let r := r1.dropWhile jsonWs
          if headIs r ',' then
            match parseElems fuel (r.tail.dropWhile jsonWs) with
            | some (vs, r3) => some (v :: vs, r3)
            | none => none
          else if headIs r ']' then some ([v], r.tail)
          else none) := rfl

theorem pf_step (fuel : Nat) (s : List Char) :
    parseFields (fuel + 1) s =
      (if headIs s '"' then
        match parseStringBody s.tail [] with
        | none => none
        | some (keyChars, r1) =>
            let r2 := r1.dropWhile jsonWs
            if headIs r2 ':' then
              match parseValue fuel (r2.tail.dropWhile jsonWs) with
              | none => none
              | some (v, r3) =>
                  let r4 := r3.dropWhile jsonWs
                  if headIs r4 ',' then
                    match parseFields fuel (r4.tail.dropWhile jsonWs) with
                    | some (pairs, r5) =>
                        some ((String.mk keyChars, v) :: pairs, r5)
                    | none => none
                  else if headIs r4 '}' then
                    some ([(String.mk keyChars, v)], r4.tail)
                  else none
            else none
      else none) := rfl

theorem parse_complete :
    ∀ fuel,
      (∀ v rest, jweight v < fuel → wfJ v = true → delimOk v rest = true →
        parseValue fuel (dumpsJ v ++ rest) = some (v, rest)) ∧
      (∀ xs rest, xs ≠ .nil → jweightArr xs < fuel → wfJArr xs = true →
        parseElems fuel (dumpsJArr xs ++ (']' :: rest)) =
          some (xs.toList, rest)) ∧
      (∀ fs rest, fs ≠ .nil → jweightObj fs < fuel → wfJObj fs = true →
        parseFields fuel (dumpsJObj fs ++ ('}' :: rest)) =
          some (fs.toList, rest)) := by
  intro fuel
  induction fuel with
  | zero =>
      refine ⟨?_, ?_, ?_⟩
      · intro v rest h _ _
        have := jweight_pos v
        omega
      · intro xs rest hne h _
        cases xs with
        | nil => exact absurd rfl hne
        | cons x ys => simp [jweightArr] at h
      · intro fs rest hne h _
        cases fs with
        | nil => exact absurd rfl hne
        | cons k v ys => simp [jweightObj] at h
  | succ fuel ih =>
      obtain ⟨ihV, ihE, ihF⟩ := ih
      have hV : ∀ v rest, jweight v < fuel + 1 → wfJ v = true →
          delimOk v rest = true →
          parseValue (fuel + 1) (dumpsJ v ++ rest) = some (v, rest) := by
        intro v rest hw hwf hd
        cases v with
        | jnull =>
            simp only [dumpsJ, List.cons_append, List.nil_append]
            exact pv_null fuel rest
        | jbool b =>
            cases b with
            | true =>
                simp only [dumpsJ, List.cons_append, List.nil_append]
                exact pv_true fuel rest
            | false =>
                simp only [dumpsJ, List.cons_append, List.nil_append]
                exact pv_false fuel rest
        | jnum i =>
            simp only [dumpsJ]
            by_cases hneg : i < 0
            · have hn1 : 1 ≤ (-i).toNat := by omega
              obtain ⟨d, t, heqn, hdlt, hdpos⟩ := printNat_head (-i).toNat
              have hne0 : digitChar d ≠ '0' :=
                digitChar_ne_zero d hdlt (hdpos hn1)
              have hnd : headNotDigit rest = true :=
                delimOk_num i rest (by omega) hd
              have hloop := parse_printNat_loop (-i).toNat d t rest heqn hdlt hnd
              have hcast : Int.ofNat (-i).toNat = -i := by
                rw [Int.ofNat_eq_coe]
                exact Int.toNat_of_nonneg (by omega)
              rw [show printInt i = '-' :: printNat (-i).toNat by
                simp [printInt, hneg]]
              rw [heqn]
              simp only [List.cons_append]
              rw [pv_neg fuel (digitChar d) (digitChar_isDigit d hdlt) hne0
                (t ++ rest)]
              rw [hloop, hcast, neg_neg]
            · by_cases hzero : i = 0
              · subst hzero
                rw [show printInt 0 = ['0'] by
                  rw [show printInt 0 = printNat (0 : Int).toNat by
                    simp [printInt]]
                  rw [show ((0 : Int).toNat) = 0 by simp]
                  rw [printNat_lt10 0 (by omega)]
                  decide]
                simp only [List.cons_append, List.nil_append]
                exact pv_zero fuel rest
              · have hn1 : 1 ≤ i.toNat := by omega
                obtain ⟨d, t, heqn, hdlt, hdpos⟩ := printNat_head i.toNat
                have hne0 : digitChar d ≠ '0' :=
                  digitChar_ne_zero d hdlt (hdpos hn1)
                have hnd : headNotDigit rest = true :=
                  delimOk_num i rest hzero hd
                have hloop := parse_printNat_loop i.toNat d t rest heqn hdlt hnd
                have hcast : Int.ofNat i.toNat = i := by
                  rw [Int.ofNat_eq_coe]
                  exact Int.toNat_of_nonneg (by omega)
                rw [show printInt i = printNat i.toNat by simp [printInt, hneg]]
                rw [heqn]
                simp only [List.cons_append]
                rw [pv_digit fuel (digitChar d) (digitChar_isDigit d hdlt) hne0
                  (t ++ rest)]
                rw [hloop, hcast]
        | jstr s =>
            have hbody : dumpsJ (.jstr s) ++ rest =
                '"' :: (encodeStringChars s.data ++ ('"' :: rest)) := by
              simp [dumpsJ]
            rw [hbody, pv_str]
            unfold parseStrValue
            rw [parseStringBody_encode s.data []]
            simp
        | jarr xs =>
            cases xs with
            | nil =>
                have hbody : dumpsJ (.jarr .nil) ++ rest =
                    '[' :: (']' :: rest) := by simp [dumpsJ, dumpsJArr]
                rw [hbody, pv_arr]
                have hdw : (']' :: rest).dropWhile jsonWs = ']' :: rest :=
                  dropWhile_cons_neg jsonWs ']' rest (by decide)
                simp [hdw, headIs]
            | cons x ys =>
                have hbody : dumpsJ (.jarr (.cons x ys)) ++ rest =
                    '[' :: (dumpsJArr (.cons x ys) ++ (']' :: rest)) := by
                  simp [dumpsJ]
                rw [hbody, pv_arr]
                rw [dropWhile_jsonWs_dumpsJArr x ys (']' :: rest)]
                rw [headIs_dumpsJArr_close x ys (']' :: rest) ']' (by simp)]
                simp only [Bool.false_eq_true, if_false]
                have hE := ihE (.cons x ys) rest (by intro h; cases h)
                  (by simp only [jweight] at hw; omega)
                  (by simpa [wfJ] using hwf)
                rw [hE]
                simp [jarr_ofList_toList]
        | jobj fs =>
            cases fs with
            | nil =>
                have hbody : dumpsJ (.jobj .nil) ++ rest =
                    '{' :: ('}' :: rest) := by simp [dumpsJ, dumpsJObj]
                rw [hbody, pv_obj]
                have hdw : ('}' :: rest).dropWhile jsonWs = '}' :: rest :=
                  dropWhile_cons_neg jsonWs '}' rest (by decide)
                simp [hdw, headIs]
            | cons k v ys =>
                have hbody : dumpsJ (.jobj (.cons k v ys)) ++ rest =
                    '{' :: (dumpsJObj (.cons k v ys) ++ ('}' :: rest)) := by
                  simp [dumpsJ]
                rw [hbody, pv_obj]
                rw [dropWhile_jsonWs_dumpsJObj k v ys ('}' :: rest)]
                obtain ⟨w, hw2⟩ := dumpsJObj_head k v ys
                have hhead : headIs (dumpsJObj (.cons k v ys) ++
                    ('}' :: rest)) '}' = false := by
                  rw [hw2]
                  simp [headIs]
                rw [hhead]
                simp only [Bool.false_eq_true, if_false]
                have hwfobj := hwf
                simp only [wfJ, Bool.and_eq_true, decide_eq_true_eq] at hwfobj
                have hF := ihF (.cons k v ys) rest (by intro h; cases h)
                  (by simp only [jweight] at hw; omega) hwfobj.2
                rw [hF]
                simp [buildDict_nodup (.cons k v ys) hwfobj.1]
      refine ⟨hV, ?_, ?_⟩
      · intro xs rest hne hw hwf
        cases xs with
        | nil => exact absurd rfl hne
        | cons v ys =>
            cases ys with
            | nil =>
                have hbody : dumpsJArr (JArr.cons v .nil) ++ (']' :: rest) =
                    dumpsJ v ++ (']' :: rest) := by simp [dumpsJArr]
                rw [hbody, pe_step]
                have hval := ihV v (']' :: rest)
                  (by simp only [jweightArr] at hw; omega)
                  (by simpa [wfJArr] using hwf)
                  (delimOk_of_head v ']' rest (by decide))
                rw [hval]
                have hdw : (']' :: rest).dropWhile jsonWs = ']' :: rest :=
                  dropWhile_cons_neg jsonWs ']' rest (by decide)
                simp [hdw, headIs, JArr.toList]
            | cons y ys2 =>
                have hwfs : wfJ v = true ∧ wfJArr (.cons y ys2) = true := by
                  simpa [wfJArr, Bool.and_eq_true] using hwf
                have hbody : dumpsJArr (JArr.cons v (.cons y ys2)) ++
                    (']' :: rest) = dumpsJ v ++
                    (',' :: (dumpsJArr (.cons y ys2) ++ (']' :: rest))) := by
                  simp [dumpsJArr]
                rw [hbody, pe_step]
                have hval := ihV v
                  (',' :: (dumpsJArr (.cons y ys2) ++ (']' :: rest)))
                  (by simp only [jweightArr] at hw; omega) hwfs.1
                  (delimOk_of_head v ',' _ (by decide))
                rw [hval]
                dsimp only
                have hdw : ((',' :: (dumpsJArr (.cons y ys2) ++
                    (']' :: rest)))).dropWhile jsonWs =
                    ',' :: (dumpsJArr (.cons y ys2) ++ (']' :: rest)) :=
                  dropWhile_cons_neg jsonWs ',' _ (by decide)
                rw [hdw]
                have hh1 : headIs (',' :: (dumpsJArr (.cons y ys2) ++
                    (']' :: rest))) ',' = true := by simp [headIs]
                rw [hh1]
                simp only [if_true, List.tail_cons]
                rw [dropWhile_jsonWs_dumpsJArr y ys2 (']' :: rest)]
                have hE2 := ihE (.cons y ys2) rest (by intro h; cases h)
                  (by simp only [jweightArr] at hw ⊢; omega) hwfs.2
                rw [hE2]
                simp [JArr.toList]
      · intro fs rest hne hw hwf
        cases fs with
        | nil => exact absurd rfl hne
        | cons k v ys =>
            have hwfs : wfJ v = true ∧ wfJObj ys = true := by
              simpa [wfJObj, Bool.and_eq_true] using hwf
            cases ys with
            | nil =>
                have hbody : dumpsJObj (JObj.cons k v .nil) ++ ('}' :: rest) =
                    '"' :: (encodeStringChars k.data ++
                      ('"' :: (':' :: (dumpsJ v ++ ('}' :: rest))))) := by
                  simp [dumpsJObj]
                rw [hbody, pf_step]
                have hh : headIs ('"' :: (encodeStringChars k.data ++
                    ('"' :: (':' :: (dumpsJ v ++ ('}' :: rest)))))) '"' =
                    true := by simp [headIs]
                rw [hh]
                simp only [if_true, List.tail_cons]
                rw [parseStringBody_encode k.data []]
                dsimp only
                have hdw : ((':' :: (dumpsJ v ++ ('}' :: rest)))).dropWhile
                    jsonWs = ':' :: (dumpsJ v ++ ('}' :: rest)) :=
                  dropWhile_cons_neg jsonWs ':' _ (by decide)
                rw [hdw]
                have hh2 : headIs (':' :: (dumpsJ v ++ ('}' :: rest))) ':' =
                    true := by simp [headIs]
                rw [hh2]
                simp only [if_true, List.tail_cons]
                rw [dropWhile_jsonWs_dumpsJ v ('}' :: rest)]
                have hval := ihV v ('}' :: rest)
                  (by simp only [jweightObj] at hw; omega) hwfs.1
                  (delimOk_of_head v '}' rest (by decide))
                rw [hval]
                dsimp only
                have hdw4 : ('}' :: rest).dropWhile jsonWs = '}' :: rest :=
                  dropWhile_cons_neg jsonWs '}' rest (by decide)
                simp [hdw4, headIs, JObj.toList]
            | cons k2 v2 ys2 =>
                have hbody : dumpsJObj (JObj.cons k v (.cons k2 v2 ys2)) ++
                    ('}' :: rest) = '"' :: (encodeStringChars k.data ++
                      ('"' :: (':' :: (dumpsJ v ++ (',' ::
                        (dumpsJObj (.cons k2 v2 ys2) ++ ('}' :: rest))))))) := by
                  simp [dumpsJObj]
                rw [hbody, pf_step]
                have hh : headIs ('"' :: (encodeStringChars k.data ++
                    ('"' :: (':' :: (dumpsJ v ++ (',' ::
                      (dumpsJObj (.cons k2 v2 ys2) ++ ('}' :: rest)))))))) '"' =
                    true := by simp [headIs]
                rw [hh]
                simp only [if_true, List.tail_cons]
                rw [parseStringBody_encode k.data []]
                dsimp only
                have hdw : ((':' :: (dumpsJ v ++ (',' ::
                    (dumpsJObj (.cons k2 v2 ys2) ++
                      ('}' :: rest)))))).dropWhile jsonWs =
                    ':' :: (dumpsJ v ++ (',' ::
                      (dumpsJObj (.cons k2 v2 ys2) ++ ('}' :: rest)))) :=
                  dropWhile_cons_neg jsonWs ':' _ (by decide)
                rw [hdw]
                have hh2 : headIs (':' :: (dumpsJ v ++ (',' ::
                    (dumpsJObj (.cons k2 v2 ys2) ++ ('}' :: rest))))) ':' =
                    true := by simp [headIs]
                rw [hh2]
                simp only [if_true, List.tail_cons]
                rw [dropWhile_jsonWs_dumpsJ v (',' ::
                  (dumpsJObj (.cons k2 v2 ys2) ++ ('}' :: rest)))]
                have hval := ihV v (',' ::
                    (dumpsJObj (.cons k2 v2 ys2) ++ ('}' :: rest)))
                  (by simp only [jweightObj] at hw; omega) hwfs.1
                  (delimOk_of_head v ',' _ (by decide))
                rw [hval]
                dsimp only
                have hdw4 : ((',' :: (dumpsJObj (.cons k2 v2 ys2) ++
                    ('}' :: rest)))).dropWhile jsonWs =
                    ',' :: (dumpsJObj (.cons k2 v2 ys2) ++ ('}' :: rest)) :=
                  dropWhile_cons_neg jsonWs ',' _ (by decide)
                rw [hdw4]
                have hh3 : headIs (',' :: (dumpsJObj (.cons k2 v2 ys2) ++
                    ('}' :: rest))) ',' = true := by simp [headIs]
                rw [hh3]
                simp only [if_true, List.tail_cons]
                rw [dropWhile_jsonWs_dumpsJObj k2 v2 ys2 ('}' :: rest)]
                have hF2 := ihF (.cons k2 v2 ys2) rest (by intro h; cases h)
                  (by simp only [jweightObj] at hw ⊢; omega) hwfs.2
                rw [hF2]
                simp [JObj.toList]

/-! ## Collapse behaviour on serialized repeats -/

theorem printNatAux_last (fuel n : Nat) (hf : 0 < fuel) :
    ∃ t d, printNatAux fuel n = t ++ [digitChar d] ∧ d < 10 := by
  cases fuel with
  | zero => omega
  | succ fuel =>
      by_cases h : n < 10
      · exact ⟨[], n, by simp [printNatAux, h], h⟩
      · exact ⟨printNatAux fuel (n / 10), n % 10, by simp [printNatAux, h],
          Nat.mod_lt _ (by omega)⟩

theorem dumpsJ_last (v : JValue) :
    ∃ t c, dumpsJ v = t ++ [c] ∧ pyIsSpace c = false := by
  cases v with
  | jnull => exact ⟨['n', 'u', 'l'], 'l', rfl, by decide⟩
  | jbool b =>
      cases b with
      | true => exact ⟨['t', 'r', 'u'], 'e', rfl, by decide⟩
      | false => exact ⟨['f', 'a', 'l', 's'], 'e', rfl, by decide⟩
  | jnum i =>
      by_cases h : i < 0
      · obtain ⟨t, d, ht, hd⟩ :=
          printNatAux_last ((-i).toNat + 1) (-i).toNat (by omega)
        refine ⟨'-' :: t, digitChar d, ?_, ?_⟩
        · simp [dumpsJ, printInt, h, printNat, ht]
        · exact (isDigitC_not_ws _ (digitChar_isDigit d hd)).2
      · obtain ⟨t, d, ht, hd⟩ :=
          printNatAux_last (i.toNat + 1) i.toNat (by omega)
        refine ⟨t, digitChar d, ?_, ?_⟩
        · simp [dumpsJ, printInt, h, printNat, ht]
        · exact (isDigitC_not_ws _ (digitChar_isDigit d hd)).2
  | jstr s =>
      exact ⟨'"' :: encodeStringChars s.data, '"', by simp [dumpsJ], by decide⟩
  | jarr xs =>
      exact ⟨'[' :: dumpsJArr xs, ']', by simp [dumpsJ], by decide⟩
  | jobj fs =>
      exact ⟨'{' :: dumpsJObj fs, '}', by simp [dumpsJ], by decide⟩

theorem stripChars_dumps_pair (v w : JValue) :
    stripChars (dumpsJ v ++ dumpsJ w) = dumpsJ v ++ dumpsJ w := by
  obtain ⟨c, t, hct, hgood⟩ := dumpsJ_head v
  obtain ⟨-, hps, -, -, -⟩ := goodStart_facts c hgood
  obtain ⟨t2, c2, ht2, hps2⟩ := dumpsJ_last w
  have h1 : (dumpsJ v ++ dumpsJ w).dropWhile pyIsSpace =
      dumpsJ v ++ dumpsJ w := by
    rw [hct]
    exact dropWhile_cons_neg pyIsSpace c _ hps
  rw [stripChars, lstripChars, h1, rstripChars]
  conv_lhs => rw [ht2]
  rw [show dumpsJ v ++ (t2 ++ [c2]) = (dumpsJ v ++ t2) ++ [c2] by simp]
  rw [List.reverse_append]
  rw [show (([c2] : List Char).reverse ++ (dumpsJ v ++ t2).reverse) =
    c2 :: (dumpsJ v ++ t2).reverse from rfl]
  rw [dropWhile_cons_neg pyIsSpace c2 _ hps2]
  rw [ht2]
  simp

theorem delimOk_nil (v : JValue) : delimOk v [] = true := by
  cases v <;> rfl

theorem pcv_step (fuel : Nat) (s : List Char) :
    parseConcatValues (fuel + 1) s =
      (match s.dropWhile pyIsSpace with
      | [] => some []
      | c :: rest =>
          match parseValue ((c :: rest).length + 1) (c :: rest) with
          | none => none
          | some (v, remaining) =>
              match parseConcatValues fuel remaining with
              | some vs => some (v :: vs)
              | none => none) := rfl

theorem pcv_nil (fuel : Nat) : parseConcatValues (fuel + 1) [] = some [] := rfl

theorem parseConcatValues_dumps_cons (v : JValue) (rest : List Char)
    (fuel : Nat) (hwf : wfJ v = true) (hd : delimOk v rest = true) :
    parseConcatValues (fuel + 1) (dumpsJ v ++ rest) =
      (match parseConcatValues fuel rest with
      | some vs => some (v :: vs)
      | none => none) := by
  obtain ⟨c, t, hct, hgood⟩ := dumpsJ_head v
  obtain ⟨-, hps, -, -, -⟩ := goodStart_facts c hgood
  have h1 : (dumpsJ v ++ rest).dropWhile pyIsSpace = dumpsJ v ++ rest := by
    rw [hct]
    exact dropWhile_cons_neg pyIsSpace c _ hps
  have hpv := (parse_complete ((dumpsJ v ++ rest).length + 1)).1 v rest
    (by
      have h2 := jweight_le.1 v
      have h3 : (dumpsJ v).length ≤ (dumpsJ v ++ rest).length := by
        rw [List.length_append]; omega
      omega) hwf hd
  rw [pcv_step, h1, hct]
  rw [hct] at hpv
  simp only [List.cons_append] at hpv ⊢
  rw [hpv]

theorem pcv_single (v : JValue) (hwf : wfJ v = true) (f : Nat) :
    parseConcatValues (f + 2) (dumpsJ v) = some [v] := by
  have h := parseConcatValues_dumps_cons v [] (f + 1) hwf (delimOk_nil v)
  rw [List.append_nil] at h
  rw [show f + 2 = (f + 1) + 1 from rfl, h, pcv_nil f]

theorem pcv_double (v : JValue) (hwf : wfJ v = true)
    (hd : delimOk v (dumpsJ v) = true) (f : Nat) :
    parseConcatValues (f + 3) (dumpsJ v ++ dumpsJ v) = some [v, v] := by
  have h := parseConcatValues_dumps_cons v (dumpsJ v) (f + 2) hwf hd
  rw [show f + 3 = (f + 2) + 1 from rfl, h, pcv_single v hwf f]

theorem collapse_dumps_double (v : JValue) (hwf : wfJ v = true)
    (hd : delimOk v (dumpsJ v) = true) :
    collapse_repeated_json_objects (dumpsJ v ++ dumpsJ v) = dumpsJ v := by
  have hstrip := stripChars_dumps_pair v v
  obtain ⟨c, t, hct, -⟩ := dumpsJ_head v
  have hL : 1 ≤ (dumpsJ v).length := by rw [hct]; simp
  have hlen : (dumpsJ v ++ dumpsJ v).length + 1 =
      (2 * (dumpsJ v).length - 2) + 3 := by
    rw [List.length_append]; omega
  have hne : (dumpsJ v ++ dumpsJ v).isEmpty = false := by rw [hct]; rfl
  have hrefl : pyEq v v = true := pyEq_refl_wf.1 v hwf
  simp only [collapse_repeated_json_objects]
  rw [hstrip, hne]
  simp only [Bool.false_eq_true, if_false]
  rw [hlen, pcv_double v hwf hd]
  dsimp only
  simp [hrefl]

theorem collapse_shape (s : List Char) :
    collapse_repeated_json_objects s = stripChars s ∨
      ∃ v vs,
        parseConcatValues ((stripChars s).length + 1) (stripChars s) =
            some (v :: vs) ∧ vs ≠ [] ∧
          vs.all (fun item => pyEq item v) = true ∧
          collapse_repeated_json_objects s = dumpsJ v := by
  by_cases hemp : (stripChars s).isEmpty = true
  · left
    have hnil : stripChars s = [] := by
      cases h : stripChars s with
      | nil => rfl
      | cons a l => rw [h] at hemp; simp at hemp
    simp only [collapse_repeated_json_objects]
    rw [if_pos hemp, hnil]
  · cases h : parseConcatValues ((stripChars s).length + 1) (stripChars s) with
    | none =>
        left
        simp only [collapse_repeated_json_objects]
        rw [if_neg hemp, h]
    | some vs =>
        cases vs with
        | nil =>
            left
            simp only [collapse_repeated_json_objects]
            rw [if_neg hemp, h]
        | cons first vs2 =>
            cases vs2 with
            | nil =>
                left
                simp only [collapse_repeated_json_objects]
                rw [if_neg hemp, h]
            | cons second others =>
                by_cases hall : ((second :: others).all
                    (fun item => pyEq item first)) = true
                · right
                  refine ⟨first, second :: others, rfl, by simp, hall, ?_⟩
                  simp only [collapse_repeated_json_objects]
                  rw [if_neg hemp, h]
                  dsimp only
                  rw [if_pos hall]
                · left
                  simp only [collapse_repeated_json_objects]
                  rw [if_neg hemp, h]
                  dsimp only
                  rw [if_neg hall]

/-- C9 (counterexample to the claim as stated): the text `"{ }"` decodes as a
single JSON object, yet collapsing `"{ }{ }"` returns the compact
re-serialization `"{}"`, not the original text `"{ }"`; and on the
non-repeated input `" 1"` the function returns the stripped text `"1"`, not
the input unchanged. -/
theorem C9_collapse_counterexample :
    parseConcatValues 4 ['{', ' ', '}'] = some [JValue.jobj .nil] ∧
    collapse_repeated_json_objects
        (['{', ' ', '}'] ++ ['{', ' ', '}']) = ['{', '}'] ∧
    (['{', '}'] : List Char) ≠ ['{', ' ', '}'] ∧
    collapse_repeated_json_objects [' ', '1'] = ['1'] ∧
    ([' ', '1'] : List Char) ≠ ['1'] :=
  ⟨rfl, by decide, by decide, by decide, by decide⟩

/-- C9 (corrected): for every well-formed JSON object value, collapsing the
concatenation of two copies of its compact dump returns the compact dump
(the claim holds verbatim only for texts already in compact form, since the
function re-serializes the first decoded value); and on every input the
function returns either the stripped input — not the input itself — or,
when the stripped text decodes as two or more `==`-equal JSON values, the
compact dump of the first one. -/
theorem C9_collapse :
    (∀ fs : JObj, wfJ (.jobj fs) = true →
      collapse_repeated_json_objects
          (dumpsJ (.jobj fs) ++ dumpsJ (.jobj fs)) = dumpsJ (.jobj fs)) ∧
    ∀ s : List Char,
      collapse_repeated_json_objects s = stripChars s ∨
        ∃ v vs,
          parseConcatValues ((stripChars s).length + 1) (stripChars s) =
              some (v :: vs) ∧ vs ≠ [] ∧
            vs.all (fun item => pyEq item v) = true ∧
            collapse_repeated_json_objects s = dumpsJ v :=
  ⟨fun fs h => collapse_dumps_double (.jobj fs) h rfl, collapse_shape⟩

/-- Witness for `C9_collapse` at the object `\x7b"a":1\x7d`. -/
theorem C9_collapse_witness :
    collapse_repeated_json_objects
        (dumpsJ (.jobj (.cons "a" (.jnum 1) .nil)) ++
          dumpsJ (.jobj (.cons "a" (.jnum 1) .nil))) =
      dumpsJ (.jobj (.cons "a" (.jnum 1) .nil)) :=
  C9_collapse.1 (.cons "a" (.jnum 1) .nil) (by decide)

/-! ## Session store (`src/utils/session_store.py`)

The JSON store file is modelled as the dict it holds, threaded through the
operations as explicit state; timestamps are a parameter. -/

/-- `get_session_id`: the stored id, provided the provider's entry is a dict
whose `sessionId` is a string that is non-blank after `strip()`. -/
def get_session_id (store : JObj) (provider : String) : Option String :=
  match dictGet store provider with
  | some (JValue.jobj fields) =>
      match dictGet fields "sessionId" with
      | some (JValue.jstr sid) =>
          if (stripChars sid.data).isEmpty then none else some sid
      | _ => none
  | _ => none

/-- `set_session_id`: store `\x7b"sessionId": …, "updatedAt": …\x7d` under the
provider key. -/
def set_session_id (store : JObj) (provider session_id updatedAt : String) :
    JObj :=
  dictSet store provider
    (.jobj (.cons "sessionId" (.jstr session_id)
      (.cons "updatedAt" (.jstr updatedAt) .nil)))

/-- `clear_session_id`: delete the provider's entry when present. -/
def clear_session_id (store : JObj) (provider : String) : JObj :=
  match dictGet store provider with
  | some _ => dictDel store provider
  | none => store

theorem dictGet_dictSet_self (d : JObj) (k : String) (v : JValue) :
    dictGet (dictSet d k v) k = some v := by
  induction d using jobj_ind with
  | nil => simp [dictSet, dictGet]
  | cons k2 v2 rest ih =>
      by_cases h : k2 = k
      · simp [dictSet, dictGet, h]
      · simp [dictSet, dictGet, h, ih]

theorem dictGet_none_of_not_mem (d : JObj) (k : String)
    (h : k ∉ dictKeys d) : dictGet d k = none := by
  induction d using jobj_ind with
  | nil => rfl
  | cons k2 v2 rest ih =>
      simp only [dictKeys, List.mem_cons, not_or] at h
      have hne : ¬k2 = k := fun heq => h.1 heq.symm
      simp [dictGet, hne, ih h.2]

theorem dictGet_dictDel_self (d : JObj) (k : String)
    (h : (dictKeys d).Nodup) : dictGet (dictDel d k) k = none := by
  induction d using jobj_ind with
  | nil => rfl
  | cons k2 v2 rest ih =>
      simp only [dictKeys, List.nodup_cons] at h
      by_cases heq : k2 = k
      · subst heq
        simp [dictDel, dictGet_none_of_not_mem rest k2 h.1]
      · simp [dictDel, dictGet, heq, ih h.2]

/-- C8 (counterexample to the claim as stated): storing the blank session id
`""` makes the subsequent `get_session_id` return `None`, not the stored
string — `get_session_id` filters out ids that are empty after `strip()`. -/
theorem C8_session_counterexample :
    get_session_id
        (set_session_id .nil "claude-minimax" "" "2024-06-01T00:00:00+00:00")
        "claude-minimax" = none ∧
      (none : Option String) ≠ some "" :=
  ⟨rfl, by decide⟩

/-- C8 (corrected): after `set_session_id p s`, `get_session_id p` returns
`s` provided `s` is non-blank after `strip()` (blank ids read back as
`None`); and after `clear_session_id p` on a store with unique keys,
`get_session_id p` returns `None`. -/
theorem C8_session_roundtrip :
    ∀ (store : JObj) (p s ts : String),
      (stripChars s.data ≠ [] →
        get_session_id (set_session_id store p s ts) p = some s) ∧
      ((dictKeys store).Nodup →
        get_session_id (clear_session_id store p) p = none) := by
  intro store p s ts
  constructor
  · intro hs
    unfold get_session_id set_session_id
    rw [dictGet_dictSet_self]
    have hemp : (stripChars s.data).isEmpty = false := by
      cases h : stripChars s.data with
      | nil => exact absurd h hs
      | cons a l => rfl
    simp [dictGet, hemp]
  · intro hnd
    unfold clear_session_id
    cases h : dictGet store p with
    | none => simp [get_session_id, h]
    | some v =>
        simp [get_session_id, dictGet_dictDel_self store p hnd]

/-- Witness for `C8_session_roundtrip` on a one-provider store. -/
theorem C8_session_roundtrip_witness :
    get_session_id
        (set_session_id .nil "codex" "sess-1" "2024-06-01T00:00:00+00:00")
        "codex" = some "sess-1" ∧
      get_session_id
        (clear_session_id
          (set_session_id .nil "codex" "sess-1" "2024-06-01T00:00:00+00:00")
          "codex") "codex" = none :=
  ⟨(C8_session_roundtrip .nil "codex" "sess-1"
      "2024-06-01T00:00:00+00:00").1 (by decide),
    (C8_session_roundtrip
      (set_session_id .nil "codex" "sess-1" "2024-06-01T00:00:00+00:00")
      "codex" "sess-1" "2024-06-01T00:00:00+00:00").2 (by decide)⟩

/-! ## Runtime config cache (`src/utils/runtime_config.py`)

`_CONFIG_CACHE` is threaded as explicit state; the filesystem
(`Path.resolve`, `_file_signature`, `_load_toml_dict`, the `.local` name
computation) and the `_normalize_config` pass — whose field coercions use
floats, outside the integer value model — are parameters of the model, so
every theorem below holds for the concrete ones. `_deep_merge_dict` and the
`copy.deepcopy` calls are modelled exactly. -/

mutual
/-- The `for key, value in override.items()` loop of `_deep_merge_dict`,
updating the accumulated `merged` dict in insertion order. -/
def dmFold : JObj → JObj → JObj
  | merged, .nil => merged
  | merged, .cons k v rest =>
      dmFold (dictSet merged k (dmValue (dictGet merged k) v)) rest

/-- One override entry: recurse when both sides are dicts, else the
override value wins. -/
def dmValue : Option JValue → JValue → JValue
  | some (.jobj mv), .jobj ov => .jobj (dmFold (deepCopyObj mv) ov)
  | _, v => v
end

/-- `_deep_merge_dict`: start from a deep copy of `base`, then fold the
override entries. -/
def deep_merge_dict (base override : JObj) : JObj :=
  dmFold (deepCopyObj base) override

/-- `_file_signature`: `(exists, mtime_ns, size)`. -/
def FileSig : Type := Bool × Nat × Nat

instance : DecidableEq FileSig := by
  unfold FileSig
  infer_instance

/-- The world `load_runtime_config` reads: path resolution, the `.local`
companion name, file signatures, parsed TOML, and the normalization pass. -/
structure ConfigWorld where
  resolveKey : String → String
  localName : String → String
  sigOf : String → FileSig
  tomlOf : String → JObj
  normalizeCfg : JObj → JObj
  defaultConfig : JObj

/-- `_CONFIG_CACHE`: resolved path ↦ (`sig`, `config`). -/
def ConfigCache : Type := List (String × ((FileSig × FileSig) × JObj))

/-- `dict.get` on the cache. -/
def cacheGet : ConfigCache → String → Option ((FileSig × FileSig) × JObj)
  | [], _ => none
  | (k, e) :: rest, key => if k = key then some e else cacheGet rest key

/-- `dict[key] = entry` on the cache. -/
def cacheSet (c : ConfigCache) (key : String)
    (e : (FileSig × FileSig) × JObj) : ConfigCache :=
  match c with
  | [] => [(key, e)]
  | (k, e0) :: rest =>
      if k = key then (k, e) :: rest else (k, e0) :: cacheSet rest key e

/-- `load_runtime_config`: serve a deep copy from the cache when the two
file signatures are unchanged; otherwise merge defaults with the config and
local TOML files, normalize, cache the result, and return a deep copy. -/
def load_runtime_config (w : ConfigWorld) (cache : ConfigCache)
    (config_path : String) : JObj × ConfigCache :=
  let local_file := w.localName config_path
  let cache_key := w.resolveKey config_path
  let current_sig := (w.sigOf config_path, w.sigOf local_file)
  let cached : Option JObj :=
    match cacheGet cache cache_key with
    | some entry => if entry.1 = current_sig then some entry.2 else none
    | none => none
  match cached with
  | some cfg => (deepCopyObj cfg, cache)
  | none =>
      let merged0 := deepCopyObj w.defaultConfig
      let merged1 := deep_merge_dict merged0 (w.tomlOf config_path)
      let merged2 := deep_merge_dict merged1 (w.tomlOf local_file)
      let normalized := w.normalizeCfg merged2
      (deepCopyObj normalized,
        cacheSet cache cache_key (current_sig, normalized))

theorem cacheGet_cacheSet_self (c : ConfigCache) (key : String)
    (e : (FileSig × FileSig) × JObj) :
    cacheGet (cacheSet c key e) key = some e := by
  induction c with
  | nil => simp [cacheSet, cacheGet]
  | cons kv rest ih =>
      obtain ⟨k, e0⟩ := kv
      by_cases h : k = key
      · simp [cacheSet, cacheGet, h]
      · simp [cacheSet, cacheGet, h, ih]

theorem deep_copy_id :
    (∀ v, deep_copy v = v) ∧ (∀ xs, deepCopyArr xs = xs) ∧
      (∀ fs, deepCopyObj fs = fs) := by
  refine jmutual_ind _ _ _ ?_ ?_ ?_ ?_ ?_ ?_ ?_ ?_ ?_ ?_
  · simp [deep_copy]
  · intro b; simp [deep_copy]
  · intro n; simp [deep_copy]
  · intro s; simp [deep_copy]
  · intro xs h; simp [deep_copy, h]
  · intro fs h; simp [deep_copy, h]
  · simp [deepCopyArr]
  · intro v xs hv hxs; simp [deepCopyArr, hv, hxs]
  · simp [deepCopyObj]
  · intro k v fs hv hfs; simp [deepCopyObj, hv, hfs]

/-- The freshly computed configuration on a cache miss: defaults deep-copied,
merged with the config file then the local override, then normalized. -/
def freshConfig (w : ConfigWorld) (path : String) : JObj :=
  w.normalizeCfg
    (deep_merge_dict
      (deep_merge_dict (deepCopyObj w.defaultConfig) (w.tomlOf path))
      (w.tomlOf (w.localName path)))

/-- C7 (confirmed): with the files unchanged, a second `load_runtime_config`
on the same path returns the same value as the first and leaves the cache
untouched; after any load the cache holds a normalized config for the
resolved path, and the caller receives its deep copy (equal to it, so later
loads are independent of whatever the caller does with the returned
record). -/
theorem C7_config_cache :
    ∀ (w : ConfigWorld) (cache : ConfigCache) (path : String),
      (load_runtime_config w (load_runtime_config w cache path).2 path).1 =
          (load_runtime_config w cache path).1 ∧
        (load_runtime_config w (load_runtime_config w cache path).2 path).2 =
          (load_runtime_config w cache path).2 ∧
        ∃ sig cfg,
          cacheGet (load_runtime_config w cache path).2 (w.resolveKey path) =
              some (sig, cfg) ∧
            (load_runtime_config w cache path).1 = deepCopyObj cfg ∧
            deepCopyObj cfg = cfg := by
  intro w cache path
  cases hget : cacheGet cache (w.resolveKey path) with
  | some entry =>
      by_cases hsig : entry.1 = (w.sigOf path, w.sigOf (w.localName path))
      · have hr1 : load_runtime_config w cache path =
            (deepCopyObj entry.2, cache) := by
          simp only [load_runtime_config]
          rw [hget]
          dsimp only
          rw [if_pos hsig]
        refine ⟨?_, ?_, entry.1, entry.2, ?_, ?_, deep_copy_id.2.2 entry.2⟩
        · simp [hr1]
        · simp [hr1]
        · simp [hr1, hget]
        · simp [hr1]
      · have hr1 : load_runtime_config w cache path =
            (deepCopyObj (freshConfig w path),
              cacheSet cache (w.resolveKey path)
                ((w.sigOf path, w.sigOf (w.localName path)),
                  freshConfig w path)) := by
          simp only [load_runtime_config, freshConfig, deep_merge_dict]
          rw [hget]
          dsimp only
          rw [if_neg hsig]
        have hget2 := cacheGet_cacheSet_self cache (w.resolveKey path)
          ((w.sigOf path, w.sigOf (w.localName path)), freshConfig w path)
        have hr2 : load_runtime_config w
            (load_runtime_config w cache path).2 path =
            (deepCopyObj (freshConfig w path),
              (load_runtime_config w cache path).2) := by
          rw [hr1]
          simp only [load_runtime_config]
          rw [hget2]
          simp [freshConfig, deep_merge_dict]
        refine ⟨?_, ?_, (w.sigOf path, w.sigOf (w.localName path)),
          freshConfig w path, ?_, ?_, deep_copy_id.2.2 _⟩
        · rw [hr2, hr1]
        · rw [hr2]
        · rw [hr1]; exact hget2
        · rw [hr1]
  | none =>
      have hr1 : load_runtime_config w cache path =
          (deepCopyObj (freshConfig w path),
            cacheSet cache (w.resolveKey path)
              ((w.sigOf path, w.sigOf (w.localName path)),
                freshConfig w path)) := by
        simp only [load_runtime_config, freshConfig, deep_merge_dict]
        rw [hget]
      have hget2 := cacheGet_cacheSet_self cache (w.resolveKey path)
        ((w.sigOf path, w.sigOf (w.localName path)), freshConfig w path)
      have hr2 : load_runtime_config w
          (load_runtime_config w cache path).2 path =
          (deepCopyObj (freshConfig w path),
            (load_runtime_config w cache path).2) := by
        rw [hr1]
        simp only [load_runtime_config]
        rw [hget2]
        simp [freshConfig, deep_merge_dict]
      refine ⟨?_, ?_, (w.sigOf path, w.sigOf (w.localName path)),
        freshConfig w path, ?_, ?_, deep_copy_id.2.2 _⟩
      · rw [hr2, hr1]
      · rw [hr2]
      · rw [hr1]; exact hget2
      · rw [hr1]

/-! ## Review protocol validation (`src/protocol/validators.py`)

`validate_json_protocol_content` specialized to `current_agent = "stella"`,
the sole member of `REVIEW_AGENTS`.  Errors are `(code, message)` pairs in
emission order; `parsed_content` is not modelled (nothing below depends on
it).  The schema-version and enum constants come from
`src/protocol/models.py`. -/

def ENVELOPE_SCHEMA_VERSION : String := "friendsbar.envelope.v1"

def REVIEW_SCHEMA_VERSION : String := "friendsbar.review.v1"

def ALLOWED_ROLES : List String := ["task", "review", "final", "error", "observation"]

def ALLOWED_STATUS : List String := ["ok", "partial", "failed"]

def ALLOWED_ACCEPTANCE : List String := ["pass", "conditional", "fail"]

def ALLOWED_GATE_DECISION : List String := ["allow", "conditional", "block"]

/-- Modelled from the spec: the error-code taxonomy of §4.4 (the `errors`
module itself is absent from the source tree; the test suite compares
`code` fields against these literal strings). -/
def E_SCHEMA_INVALID_FORMAT : String := "E_SCHEMA_INVALID_FORMAT"

/-- Modelled from the spec: see `E_SCHEMA_INVALID_FORMAT`. -/
def E_SCHEMA_MISSING_FIELD : String := "E_SCHEMA_MISSING_FIELD"

/-- Modelled from the spec: see `E_SCHEMA_INVALID_FORMAT`. -/
def E_SCHEMA_INVALID_ENUM : String := "E_SCHEMA_INVALID_ENUM"

/-- Modelled from the spec: see `E_SCHEMA_INVALID_FORMAT`. -/
def E_REVIEW_EVIDENCE_MISSING : String := "E_REVIEW_EVIDENCE_MISSING"

/-- Modelled from the spec: see `E_SCHEMA_INVALID_FORMAT`. -/
def E_REVIEW_GATE_INCONSISTENT : String := "E_REVIEW_GATE_INCONSISTENT"

/-- Python `value == "s"` for a possibly-absent payload value. -/
def jIsStr (v : Option JValue) (s : String) : Bool :=
  match v with
  | some (.jstr t) => t = s
  | _ => false

/-- Python `value in set_of_strings` for a possibly-absent payload value. -/
def jStrIn (v : Option JValue) (xs : List String) : Bool :=
  match v with
  | some (.jstr t) => xs.contains t
  | _ => false

/-- `str(n)` for list indices. -/
def pyStrNat (n : Nat) : String := String.mk (printNat n)

/-- `_role_for_agent`. -/
def role_for_agent (a : String) : String :=
  if a = "stella" then "review"
  else if a = "duffy" then "observation"
  else "final"

/-- The synthetic envelope `validate_json_protocol_content` builds before
calling `_validate_envelope` (the `message_id` hash is a parameter). -/
def reviewEnvelope (message_id trace_id current_agent peer_display : String) :
    JObj :=
  .cons "message_id" (.jstr message_id)
    (.cons "trace_id" (.jstr trace_id)
      (.cons "schema_version" (.jstr ENVELOPE_SCHEMA_VERSION)
        (.cons "sender" (.jstr current_agent)
          (.cons "recipient" (.jstr peer_display)
            (.cons "role" (.jstr (role_for_agent current_agent))
              (.cons "timestamp" (.jstr "")
                (.cons "content" (.jobj .nil) .nil)))))))

/-- `_validate_envelope`. -/
def validate_envelope (envelope : JObj) : List (String × String) :=
  ((["message_id", "trace_id", "schema_version", "sender", "recipient",
      "role", "timestamp", "content"].filter
    (fun k => !(dictGet envelope k).isSome)).map
    (fun k => (E_SCHEMA_MISSING_FIELD, "envelope missing field: " ++ k))) ++
  (if jIsStr (dictGet envelope "schema_version") ENVELOPE_SCHEMA_VERSION
    then [] else [(E_SCHEMA_INVALID_ENUM, "invalid envelope schema_version")]) ++
  (if jStrIn (dictGet envelope "role") ALLOWED_ROLES
    then [] else [(E_SCHEMA_INVALID_ENUM, "invalid envelope role")])

/-- The `next_question` checks shared by all roles. -/
def nextQuestionErrors (p : JObj) : List (String × String) :=
  match dictGet p "next_question" with
  | some (.jstr s) =>
      if (stripChars s.data).isEmpty then
        [(E_SCHEMA_MISSING_FIELD, "missing next_question")]
      else if !s.data.contains '？' && !s.data.contains '?' then
        [(E_SCHEMA_INVALID_FORMAT, "next_question must contain question mark")]
      else []
  | _ => [(E_SCHEMA_MISSING_FIELD, "missing next_question")]

/-- The required top-level keys of a review payload. -/
def reviewRequiredTop : List String :=
  ["schema_version", "status", "acceptance", "verification", "root_cause",
    "issues", "gate", "next_question", "warnings", "errors"]

/-- Unknown-key, missing-key, schema-version, acceptance and status errors
of the review branch, in source order. -/
def reviewTopErrors (p : JObj) : List (String × String) :=
  ((sortStrings (dedupStrings
      ((dictKeys p).filter (fun k => !reviewRequiredTop.contains k)))).map
    (fun k => (E_SCHEMA_INVALID_FORMAT, "unexpected field: " ++ k))) ++
  ((sortStrings
      (reviewRequiredTop.filter (fun k => !(dictKeys p).contains k))).map
    (fun k => (E_SCHEMA_MISSING_FIELD, "missing field: " ++ k))) ++
  (if jIsStr (dictGet p "schema_version") REVIEW_SCHEMA_VERSION then []
    else [(E_SCHEMA_INVALID_ENUM, "invalid review schema_version")]) ++
  (if jStrIn (dictGet p "acceptance") ALLOWED_ACCEPTANCE then []
    else [(E_SCHEMA_INVALID_ENUM, "invalid acceptance enum")]) ++
  (if jStrIn (dictGet p "status") ALLOWED_STATUS then []
    else [(E_SCHEMA_INVALID_ENUM, "invalid status enum")])

/-- The raw `verification` items (`[]` when the field is not a list). -/
def reviewVerItems (p : JObj) : List JValue :=
  match dictGet p "verification" with
  | some (.jarr xs) => xs.toList
  | _ => []

/-- One verification item: its errors and its normalized entry, if any. -/
def verStep (idx : Nat) (item : JValue) :
    List (String × String) × Option (String × String) :=
  match item with
  | .jobj obj =>
      let unknown := sortStrings (dedupStrings ((dictKeys obj).filter
        (fun k => !(k = "command" || k = "result"))))
      let errs1 := if unknown.isEmpty then ([] : List (String × String))
        else [(E_SCHEMA_INVALID_FORMAT,
          "verification item " ++ pyStrNat idx ++
            " has unexpected field(s): " ++ joinSep ", " unknown)]
      match dictGet obj "command", dictGet obj "result" with
      | some (.jstr c), some (.jstr r) => (errs1, some (c, r))
      | _, _ =>
          (errs1 ++ [(E_SCHEMA_INVALID_FORMAT,
            "verification item " ++ pyStrNat idx ++
              " must include string command/result")], none)
  | _ => ([(E_SCHEMA_INVALID_FORMAT,
      "invalid verification format at index " ++ pyStrNat idx)], none)

/-- The `enumerate(verification, start=1)` loop: accumulated errors and the
normalized `(command, result)` entries. -/
def verLoop : Nat → List JValue →
    List (String × String) × List (String × String)
  | _, [] => ([], [])
  | idx, item :: rest =>
      let r := verStep idx item
      let rs := verLoop (idx + 1) rest
      (r.1 ++ rs.1,
        (match r.2 with | some pr => [pr] | none => []) ++ rs.2)

/-- `normalized_verification` for a review payload. -/
def reviewNormVer (p : JObj) : List (String × String) :=
  (verLoop 1 (reviewVerItems p)).2

/-- `verification must be list` plus the per-item errors. -/
def reviewVerErrors (p : JObj) : List (String × String) :=
  (match dictGet p "verification" with
    | some (.jarr _) => ([] : List (String × String))
    | _ => [(E_SCHEMA_MISSING_FIELD, "verification must be list")]) ++
  (verLoop 1 (reviewVerItems p)).1

/-- The `E_REVIEW_EVIDENCE_MISSING` check. -/
def reviewEvidenceErrors (p : JObj) : List (String × String) :=
  if (reviewNormVer p).length < 2 then
    [(E_REVIEW_EVIDENCE_MISSING,
      "review requires at least two command/result verification entries")]
  else []

/-- The raw `issues` items (`[]` when the field is not a list). -/
def reviewIssueItems (p : JObj) : List JValue :=
  match dictGet p "issues" with
  | some (.jarr xs) => xs.toList
  | _ => []

/-- One issue item: its errors and its normalized `(severity, summary)`;
non-dict items are skipped silently. -/
def issueStep (idx : Nat) (item : JValue) :
    List (String × String) × Option (String × String) :=
  match item with
  | .jobj obj =>
      match dictGet obj "severity", dictGet obj "summary" with
      | some (.jstr sev), some (.jstr summary) =>
          if sev = "P0" || sev = "P1" || sev = "P2" then ([], some (sev, summary))
          else ([(E_SCHEMA_INVALID_FORMAT,
            "invalid issue format at index " ++ pyStrNat idx)], none)
      | _, _ => ([(E_SCHEMA_INVALID_FORMAT,
          "invalid issue format at index " ++ pyStrNat idx)], none)
  | _ => ([], none)

/-- The `enumerate(issues, start=1)` loop. -/
def issueLoop : Nat → List JValue →
    List (String × String) × List (String × String)
  | _, [] => ([], [])
  | idx, item :: rest =>
      let r := issueStep idx item
      let rs := issueLoop (idx + 1) rest
      (r.1 ++ rs.1,
        (match r.2 with | some pr => [pr] | none => []) ++ rs.2)

/-- `normalized_issues` (severity and summary; the generated `id` feeds only
`parsed_content`). -/
def reviewNormIssues (p : JObj) : List (String × String) :=
  (issueLoop 1 (reviewIssueItems p)).2

/-- `issues must be list` plus the per-item errors. -/
def reviewIssueErrors (p : JObj) : List (String × String) :=
  (match dictGet p "issues" with
    | some (.jarr _) => ([] : List (String × String))
    | _ => [(E_SCHEMA_MISSING_FIELD, "issues must be list")]) ++
  (issueLoop 1 (reviewIssueItems p)).1

/-- The `gate` checks: object shape, decision enum, conditions list. -/
def reviewGateErrors (p : JObj) : List (String × String) :=
  let gateObj := match dictGet p "gate" with
    | some (.jobj g) => g
    | _ => JObj.nil
  (match dictGet p "gate" with
    | some (.jobj _) => ([] : List (String × String))
    | _ => [(E_SCHEMA_MISSING_FIELD, "gate must be object")]) ++
  (if jStrIn (dictGet gateObj "decision") ALLOWED_GATE_DECISION then []
    else [(E_SCHEMA_INVALID_ENUM, "invalid gate decision enum")]) ++
  (match dictGet gateObj "conditions" with
    | some (.jarr _) => ([] : List (String × String))
    | _ => [(E_SCHEMA_INVALID_FORMAT, "gate.conditions must be list")])

/-- Whether `acceptance == "pass"` coexists with a normalized P0/P1 issue. -/
def reviewGateInconsistent (p : JObj) : Bool :=
  jIsStr (dictGet p "acceptance") "pass" &&
    (reviewNormIssues p).any (fun i => i.1 = "P0" || i.1 = "P1")

/-- The `E_REVIEW_GATE_INCONSISTENT` check. -/
def reviewInconsistencyErrors (p : JObj) : List (String × String) :=
  if reviewGateInconsistent p then
    [(E_REVIEW_GATE_INCONSISTENT,
      "acceptance=pass is inconsistent with P0/P1 issues")]
  else []

/-- The full error list of the review branch, segments in the source's
emission order. -/
def reviewErrors (message_id trace_id peer_display : String) (p : JObj) :
    List (String × String) :=
  validate_envelope (reviewEnvelope message_id trace_id "stella"
    peer_display) ++
  nextQuestionErrors p ++ reviewTopErrors p ++ reviewVerErrors p ++
  reviewEvidenceErrors p ++ reviewIssueErrors p ++ reviewGateErrors p ++
  reviewInconsistencyErrors p

/-- `ok = (len(errors) == 0)` for the review branch. -/
@[irreducible] def reviewOk (message_id trace_id peer_display : String)
    (p : JObj) : Bool :=
  (reviewErrors message_id trace_id peer_display p).isEmpty

/-- `validate_json_protocol_content` for `current_agent = "stella"`:
`(ok, errors)` with `ok = (len(errors) == 0)`. -/
def validate_json_protocol_review (message_id trace_id peer_display : String)
    (payload : JValue) : Bool × List (String × String) :=
  match payload with
  | .jobj p =>
      (reviewOk message_id trace_id peer_display p,
        reviewErrors message_id trace_id peer_display p)
  | _ => (false, [(E_SCHEMA_INVALID_FORMAT, "payload must be a JSON object")])

theorem mem_not_isEmpty (l : List (String × String)) (a : String × String)
    (h : a ∈ l) : l.isEmpty = false := by
  cases l with
  | nil => cases h
  | cons x t => rfl

theorem evidence_mem_reviewErrors (mid tid peer : String) (p : JObj)
    (hlen : (reviewNormVer p).length < 2) :
    (E_REVIEW_EVIDENCE_MISSING,
      "review requires at least two command/result verification entries") ∈
      reviewErrors mid tid peer p := by
  have hev : (E_REVIEW_EVIDENCE_MISSING,
      "review requires at least two command/result verification entries") ∈
      reviewEvidenceErrors p := by
    simp [reviewEvidenceErrors, hlen]
  simp only [reviewErrors, List.mem_append]
  tauto

theorem gate_mem_reviewErrors (mid tid peer : String) (p : JObj)
    (hinc : reviewGateInconsistent p = true) :
    (E_REVIEW_GATE_INCONSISTENT,
      "acceptance=pass is inconsistent with P0/P1 issues") ∈
      reviewErrors mid tid peer p := by
  have hev : (E_REVIEW_GATE_INCONSISTENT,
      "acceptance=pass is inconsistent with P0/P1 issues") ∈
      reviewInconsistencyErrors p := by
    simp [reviewInconsistencyErrors, hinc]
  simp only [reviewErrors, List.mem_append]
  tauto

/-- C2 (confirmed): a review payload validates with `ok = true` only when it
has at least two well-formed `command`/`result` verification entries and
`acceptance = "pass"` does not coexist with a normalized P0/P1 issue;
whenever fewer than two entries normalize, `E_REVIEW_EVIDENCE_MISSING` is
emitted, and whenever the pass/P0-P1 conflict holds,
`E_REVIEW_GATE_INCONSISTENT` is emitted. -/
theorem C2_review_validator :
    ∀ (mid tid peer : String) (payload : JValue),
      ((validate_json_protocol_review mid tid peer payload).1 = true →
        ∃ p, payload = .jobj p ∧
          2 ≤ (reviewNormVer p).length ∧
          reviewGateInconsistent p = false) ∧
      (∀ p, payload = .jobj p → (reviewNormVer p).length < 2 →
        (E_REVIEW_EVIDENCE_MISSING,
          "review requires at least two command/result verification entries") ∈
          (validate_json_protocol_review mid tid peer payload).2) ∧
      (∀ p, payload = .jobj p → reviewGateInconsistent p = true →
        (E_REVIEW_GATE_INCONSISTENT,
          "acceptance=pass is inconsistent with P0/P1 issues") ∈
          (validate_json_protocol_review mid tid peer payload).2) := by
  intro mid tid peer payload
  refine ⟨?_, ?_, ?_⟩
  · intro hok
    cases payload with
    | jobj p =>
        have hok2 : reviewOk mid tid peer p = true := hok
        refine ⟨p, rfl, ?_, ?_⟩
        · by_cases hlen : (reviewNormVer p).length < 2
          · unfold reviewOk at hok2
            rw [mem_not_isEmpty _ _
              (evidence_mem_reviewErrors mid tid peer p hlen)] at hok2
            cases hok2
          · omega
        · by_cases hinc : reviewGateInconsistent p = true
          · unfold reviewOk at hok2
            rw [mem_not_isEmpty _ _
              (gate_mem_reviewErrors mid tid peer p hinc)] at hok2
            cases hok2
          · simpa using hinc
    | jnull => exact Bool.noConfusion hok
    | jbool b => exact Bool.noConfusion hok
    | jnum i => exact Bool.noConfusion hok
    | jstr s => exact Bool.noConfusion hok
    | jarr xs => exact Bool.noConfusion hok
  · intro p hp hlen
    subst hp
    exact evidence_mem_reviewErrors mid tid peer p hlen
  · intro p hp hinc
    subst hp
    exact gate_mem_reviewErrors mid tid peer p hinc

/-- Witness for `C2_review_validator`: a payload whose `verification` list is
empty receives the evidence-missing error. -/
theorem C2_review_validator_witness :
    (E_REVIEW_EVIDENCE_MISSING,
      "review requires at least two command/result verification entries") ∈
      (validate_json_protocol_review "m" "t" "peer"
        (.jobj (.cons "verification" (.jarr .nil) .nil))).2 :=
  (C2_review_validator "m" "t" "peer"
    (.jobj (.cons "verification" (.jarr .nil) .nil))).2.1
    (.cons "verification" (.jarr .nil) .nil) rfl (by decide)

/-! ## Invoke gateway (`src/invoke.py`)

The session/retry slice of `invoke`: the provider is a parameter (call
index and session id in, result or process error out), the session store is
threaded state, and `retry_attempts`/`use_session` arrive already resolved
(their config plumbing has no bearing on the loop).  The loop in the source
never changes `last_session_id` between attempts and contains no
stale-session handling; `clear_session_id` is not even imported there. -/

/-- The fields of `ProcessExecutionError` the retry logic reads. -/
structure ProcessError where
  reason : String
  stderr_tail : List String

/-- A provider result (`text`, `session_id`). -/
structure PResult where
  text : String
  session_id : Option String

/-- `_is_retryable_process_error`. -/
def is_retryable_process_error (e : ProcessError) : Bool :=
  if e.reason = "idle_timeout" || e.reason = "max_timeout" then true
  else if !(e.reason = "nonzero_exit") then false
  else
    ["timeout", "temporarily", "try again", "429", "503", "504",
      "connection", "network", "rate limit"].any
      (fun k => pyContains (pyLower (joinSep " " e.stderr_tail)) k)

/-- The `while True` attempt loop of `invoke`; `fuel` is the number of
retries still allowed (`retry_attempts - attempt`, so `attempt >=
retry_attempts` is `fuel = 0`).  Returns the result with its
`attempt_count`, or the raised error. -/
def invokeAttempts (provider : Nat → Option String → Except ProcessError PResult)
    (session : Option String) :
    Nat → Nat → Except ProcessError (PResult × Nat)
  | fuel, attempt =>
      match provider attempt session with
      | .ok r => .ok (r, attempt)
      | .error e =>
          match fuel with
          | 0 => .error e
          | fuel2 + 1 =>
              if is_retryable_process_error e then
                invokeAttempts provider session fuel2 (attempt + 1)
              else .error e

/-- The session flow of `invoke`: read the stored id once, run the attempt
loop with that fixed id, and on success store any non-blank returned id.
An error propagates with the store untouched. -/
def invoke (store : JObj) (provider_name : String)
    (provider : Nat → Option String → Except ProcessError PResult)
    (retry_attempts : Nat) (use_session : Bool) (updatedAt : String) :
    Except ProcessError (PResult × Nat × JObj) :=
  let last_session_id :=
    if use_session then get_session_id store provider_name else none
  match invokeAttempts provider last_session_id retry_attempts 0 with
  | .error e => .error e
  | .ok (r, attempt_count) =>
      let store2 :=
        match r.session_id with
        | some sid =>
            if use_session && !(stripChars sid.data).isEmpty then
              set_session_id store provider_name sid updatedAt
            else store
        | none => store
      .ok (r, attempt_count, store2)

/-- The failing input of
`test_claude_stale_session_auto_clears_and_retries_once`. -/
def staleError : ProcessError :=
  ⟨"nonzero_exit", ["No conversation found with session ID: stale-id"]⟩

/-- The test's fake provider: the first call fails with the stale-session
error, any later call succeeds with a fresh session. -/
def staleProvider : Nat → Option String → Except ProcessError PResult :=
  fun n _ => if n = 0 then .error staleError
    else .ok ⟨"ok", some "fresh-id"⟩

/-- The store holding the stale id, as the patched `get_session_id`
presents it. -/
def staleStore : JObj :=
  set_session_id .nil "claude-minimax" "stale-id" "2024-06-01T00:00:00+00:00"

/-- C3 (code bug): at the exact input of the repo's own test
`test_claude_stale_session_auto_clears_and_retries_once` — a stored session
id and a first provider call failing with `nonzero_exit` whose stderr
matches "no conversation found with session ID" — `invoke` propagates the
error: there is no second attempt with a cleared session (which would have
succeeded) and the store keeps the stale id.  The spec (§4.3) and that test
require the id to be cleared and the call retried once; `invoke` contains
no such path (`clear_session_id` is never imported or called). -/
theorem C3_stale_session_not_retried :
    invoke staleStore "claude-minimax" staleProvider 0 true
        "2024-06-01T00:00:00+00:00" = .error staleError ∧
      pyContains (pyLower (joinSep " " staleError.stderr_tail))
        "no conversation found with session id" = true ∧
      is_retryable_process_error staleError = false ∧
      get_session_id staleStore "claude-minimax" = some "stale-id" ∧
      staleProvider 1 none = .ok ⟨"ok", some "fresh-id"⟩ :=
  ⟨rfl, by decide, by decide, rfl, rfl⟩

/-! ## Orchestrator (`src/friends_bar/orchestrator.py`)

The dialogue loop, its per-attempt safety gate, and workdir resolution.
The filesystem (`Path.resolve`, `exists`, `is_dir`) is a parameter `FS`;
`shlex.split` and `re.search` are stdlib parameters (`tokenize`,
`reSearch`) — every theorem quantifies over them; `_validate_agent_output`
composed with the gate is the per-attempt outcome parameter `out`.
`os.path.normcase` is the identity (POSIX).  Path strings are normalized
the way `str(Path(...))` does on POSIX (duplicate slashes and `.`
components dropped, trailing slash dropped, single-slash root). -/

/-- The filesystem facts the orchestrator reads. -/
structure FS where
  pathExists : String → Bool
  isDir : String → Bool
  resolve : String → Option (List String)

/-- The three agents of `AGENT_TURN_ORDER`. -/
inductive Agent where
  | duffy
  | linabell
  | stella
deriving DecidableEq

/-- `_next_agent` on the fixed cycle. -/
def next_agent : Agent → Agent
  | .duffy => .linabell
  | .linabell => .stella
  | .stella => .duffy

def MAX_PROTOCOL_RETRY : Nat := 3

/-- Split a path string at `/`. -/
def splitOnSlashGo (acc : List Char) : List Char → List (List Char)
  | [] => [acc.reverse]
  | c :: rest =>
      if c = '/' then acc.reverse :: splitOnSlashGo [] rest
      else splitOnSlashGo (c :: acc) rest

/-- The path components `PurePosixPath` keeps (empties and `.` dropped). -/
def pathParts (s : List Char) : List (List Char) :=
  (splitOnSlashGo [] s).filter (fun p => !p.isEmpty && p ≠ ['.'])

/-- `str(Path(s))` on POSIX. -/
def pathStr (s : String) : String :=
  let abs := startsWithChars ['/'] s.data
  let parts := pathParts s.data
  if parts.isEmpty then (if abs then "/" else ".")
  else (if abs then "/" else "") ++ joinSep "/" (parts.map String.mk)

/-- `str(Path(s).parent)` on POSIX. -/
def pathParent (s : String) : String :=
  let abs := startsWithChars ['/'] s.data
  let parts := pathParts s.data
  match parts with
  | [] => pathStr s
  | [_] => if abs then "/" else "."
  | _ => (if abs then "/" else "") ++ joinSep "/" (parts.dropLast.map String.mk)

/-- `_path_within`: prefix comparison of the resolved parts (`normcase` is
the identity on POSIX); `False` when either resolution fails. -/
def path_within (fs : FS) (child parent : String) : Bool :=
  match fs.resolve child, fs.resolve parent with
  | some cp, some pp =>
      decide (pp.length ≤ cp.length) && decide (cp.take pp.length = pp)
  | _, _ => false

/-- `_ensure_allowed_roots` as a predicate (`true` = no exception). -/
def ensure_allowed_roots (fs : FS) (project : String)
    (allowed_roots : List String) : Bool :=
  if allowed_roots.isEmpty then true
  else allowed_roots.any
    (fun root => !root.data.isEmpty && path_within fs project root)

/-- `_UNIX_PATH_ALLOWED_CHARS`. -/
def isAllowedPathChar (c : Char) : Bool :=
  ('a' ≤ c && c ≤ 'z') || ('A' ≤ c && c ≤ 'Z') || ('0' ≤ c && c ≤ '9') ||
    c = '.' || c = '_' || c = '-' || c = '/'

/-- The candidate scan of `_extract_requested_workdir`: walk the text,
start a run at each `/` whose previous character is not `:` or `/`, take
the allowed-character run, right-strip `/`, keep candidates longer than
one character.  Fuel bounds the walk (each step consumes at least one
character). -/
def extractCandidates : Nat → Option Char → List Char → List (List Char)
  | 0, _, _ => []
  | _ + 1, _, [] => []
  | fuel + 1, prev, c :: rest =>
      if c ≠ '/' then extractCandidates fuel (some c) rest
      else if prev = some ':' ∨ prev = some '/' then
        extractCandidates fuel (some '/') rest
      else
        let run := (c :: rest).takeWhile isAllowedPathChar
        let restAfter := (c :: rest).drop run.length
        let candidate := rstripChars (fun ch => ch = '/') run
        (if candidate.length > 1 then [candidate] else []) ++
          extractCandidates fuel run.getLast? restAfter

/-- First-occurrence dedup for candidate lists (`set(...)`). -/
def dedupListsGo (seen : List (List Char)) : List (List Char) →
    List (List Char)
  | [] => []
  | x :: rest =>
      if seen.contains x then dedupListsGo seen rest
      else x :: dedupListsGo (x :: seen) rest

/-- Stable insertion by decreasing length (`sorted(..., key=len,
reverse=True)`; ties keep their relative order, which Python leaves to the
set's iteration order). -/
def insertByLen (x : List Char) : List (List Char) → List (List Char)
  | [] => [x]
  | y :: rest =>
      if y.length < x.length then x :: y :: rest else y :: insertByLen x rest

def sortByLenDesc : List (List Char) → List (List Char)
  | [] => []
  | x :: rest => insertByLen x (sortByLenDesc rest)

/-- The candidate-qualification loop: an existing directory, or a path
whose parent is an existing directory, wins. -/
def firstQualify (fs : FS) : List (List Char) → Option String
  | [] => none
  | cand :: rest =>
      let pstr := pathStr (String.mk cand)
      if fs.pathExists pstr && fs.isDir pstr then some pstr
      else
        let parent := pathParent (String.mk cand)
        if parent ≠ pstr && fs.pathExists parent && fs.isDir parent then
          some pstr
        else firstQualify fs rest

/-- `_extract_requested_workdir`. -/
def extract_requested_workdir (fs : FS) (user_request : String) :
    Option String :=
  let text := stripChars user_request.data
  if text.isEmpty then none
  else
    firstQualify fs
      (sortByLenDesc (dedupListsGo [] (extractCandidates text.length none text)))

/-- `_resolve_workdir`; `none` is the `cwd_default` outcome the caller
turns into the missing-workdir `ValueError`. -/
def resolve_workdir (fs : FS) (project_path : Option String)
    (user_request : String) : Option (String × String) :=
  match project_path with
  | some p => some (pathStr p, "project_path_arg")
  | none =>
      match extract_requested_workdir fs user_request with
      | some inferred => some (pathStr inferred, "user_request")
      | none => none

/-- `_collect_commands`: STELLA reads `verification`, the others read
`result.execution_evidence`; only dict items with a string `command`
contribute. -/
def collect_commands (content : JObj) (agent : Agent) : List String :=
  match agent with
  | .stella =>
      match dictGet content "verification" with
      | some (.jarr xs) =>
          xs.toList.filterMap (fun item =>
            match item with
            | .jobj obj =>
                match dictGet obj "command" with
                | some (.jstr c) => some c
                | _ => none
            | _ => none)
      | _ => []
  | _ =>
      match dictGet content "result" with
      | some (.jobj res) =>
          match dictGet res "execution_evidence" with
          | some (.jarr xs) =>
              xs.toList.filterMap (fun item =>
                match item with
                | .jobj obj =>
                    match dictGet obj "command" with
                    | some (.jstr c) => some c
                    | _ => none
                | _ => none)
          | _ => []
      | _ => []

/-- `_command_policy_errors`; `reSearch pat cmd` stands for
`re.compile(pat).search(cmd)`. -/
def command_policy_errors (reSearch : String → String → Bool)
    (allowlist denylist : List String) (commands : List String) :
    List String :=
  let allow_patterns := allowlist.filter (fun p => !p.data.isEmpty)
  let deny_patterns := denylist.filter (fun p => !p.data.isEmpty)
  (commands.map (fun cmd =>
    if deny_patterns.any (fun pat => reSearch pat cmd) then
      ["E_SAFETY_COMMAND_DENIED: " ++ cmd]
    else if !allow_patterns.isEmpty &&
        !(allow_patterns.any (fun pat => reSearch pat cmd)) then
      ["E_SAFETY_COMMAND_NOT_ALLOWED: " ++ cmd]
    else [])).flatten

/-- `raw.split("=", 1)[1]`. -/
def afterFirstEq (cs : List Char) : List Char :=
  (cs.dropWhile (fun c => c ≠ '=')).tail

/-- `strip` over a character set, both ends. -/
def stripCharSet (setc : List Char) (cs : List Char) : List Char :=
  rstripChars (fun c => setc.contains c)
    (lstripChars (fun c => setc.contains c) cs)

/-- The per-token candidate processing of
`_extract_absolute_paths_from_command`: strip, split `--flag=value`, strip
surrounding quotes/backtick, strip `(` on the left and `;,|&)` on the
right, skip URLs, keep tokens starting with `/`. -/
def processToken (token : String) : List String :=
  let raw := stripChars token.data
  if raw.isEmpty then []
  else
    let candidates := [raw] ++
      (if startsWithChars ['-'] raw && raw.contains '=' then
        [stripChars (afterFirstEq raw)]
      else [])
    (candidates.map (fun value =>
      let n1 := stripCharSet ['\'', '"', Char.ofNat 96] (stripChars value)
      let normalized := rstripChars
        (fun c => c = ';' || c = ',' || c = '|' || c = '&' || c = ')')
        (lstripChars (fun c => c = '(') n1)
      if normalized.isEmpty then []
      else if containsSeq [':', '/', '/'] normalized then []
      else if startsWithChars ['/'] normalized then [String.mk normalized]
      else [])).flatten

/-- `_extract_absolute_paths_from_command`; `tokenize` stands for
`shlex.split(command, posix=True)` with its `command.split()` fallback. -/
def extract_absolute_paths_from_command (tokenize : String → List String)
    (command : String) : List String :=
  ((tokenize command).map processToken).flatten

/-- `_command_workdir_errors`: per command, collect extracted absolute
tokens that resolve outside the workdir (tokens whose resolution fails are
skipped) and emit one aggregated error. -/
def command_workdir_errors (fs : FS) (tokenize : String → List String)
    (workdir : String) (commands : List String) : List String :=
  (commands.map (fun cmd =>
    let outside := (extract_absolute_paths_from_command tokenize cmd).filter
      (fun raw =>
        match fs.resolve raw with
        | none => false
        | some _ => !path_within fs raw workdir)
    if outside.isEmpty then []
    else ["E_WORKDIR_COMMAND_OUTSIDE: " ++
      joinSep ", " (sortStrings (dedupStrings outside)) ++
      " | cmd=" ++ cmd])).flatten

/-- The safety-gate block one attempt runs after validation (orchestrator
lines 1436–1492): command policy first, then — only while still valid and
for LINA_BELL/STELLA — the workdir check, then — only while still valid,
for LINA_BELL executing without read-only — the deliverables check
(`verify_delivery` parameterizes `_verify_delivery_deliverables`, a
filesystem walk). -/
def attemptGate (fs : FS) (reSearch : String → String → Bool)
    (tokenize : String → List String) (allowlist denylist : List String)
    (workdir : String) (agent : Agent) (response_mode : String)
    (read_only : Bool) (verify_delivery : JObj → List String)
    (is_valid : Bool) (protocol_errors : List String)
    (parsed_content : Option JObj) : Bool × List String :=
  match parsed_content with
  | none => (is_valid, protocol_errors)
  | some content =>
      if !is_valid then (is_valid, protocol_errors)
      else
        let commands := collect_commands content agent
        let safety_errors := command_policy_errors reSearch allowlist denylist
          commands
        let v1 := safety_errors.isEmpty
        let e1 := if safety_errors.isEmpty then protocol_errors
          else protocol_errors ++ safety_errors
        let r2 :=
          if v1 && (decide (agent = .linabell) || decide (agent = .stella)) then
            let workdir_errors := command_workdir_errors fs tokenize workdir
              commands
            if workdir_errors.isEmpty then (v1, e1)
            else (false, e1 ++ workdir_errors)
          else (v1, e1)
        if r2.1 && decide (agent = .linabell) &&
            decide (response_mode = "execute") && !read_only then
          let de := verify_delivery content
          if de.isEmpty then r2 else (false, r2.2 ++ de)
        else r2

/-- One transcript entry (the fields the claims speak about). -/
structure TurnRecord where
  turn : Nat
  agent : Agent
  attempts : Nat
deriving DecidableEq

/-- The `for attempt_idx in range(MAX_PROTOCOL_RETRY + 1)` loop: run
attempts until one is valid or the range ends; returns the last attempt's
validity, its errors and `attempt_count`. -/
def attemptLoop (out : Nat → Bool × List String) :
    Nat → Nat → Bool × (List String × Nat)
  | idx, 0 => (true, ([], idx))
  | idx, 1 =>
      let r := out idx
      (r.1, (r.2, idx + 1))
  | idx, fuel + 2 =>
      let r := out idx
      if r.1 then (r.1, (r.2, idx + 1)) else attemptLoop out (idx + 1) (fuel + 1)

/-- The loop state of `run_two_agent_dialogue`. -/
structure RunState where
  transcript : List TurnRecord
  current_agent : Agent
  providerCalls : Nat
  dryTriggered : Bool
  runError : Option String

/-- The turn loop: per turn, run the attempt loop (each executed attempt is
one provider call); raise the aggregated run-level error when the final
attempt still has errors, else append the turn record and move to the next
agent.  `dry_run` breaks out of the first turn before any provider call. -/
def runTurnsAux (out : Agent → Nat → Nat → Bool × List String)
    (dry_run : Bool) : Nat → Nat → RunState → RunState
  | 0, _, s => s
  | n + 1, turn, s =>
      if dry_run then
        ⟨s.transcript, s.current_agent, s.providerCalls, true, s.runError⟩
      else
        let r := attemptLoop (out s.current_agent turn) 0
          (MAX_PROTOCOL_RETRY + 1)
        if r.2.1.isEmpty then
          runTurnsAux out dry_run n (turn + 1)
            ⟨s.transcript ++ [⟨turn, s.current_agent, r.2.2⟩],
              next_agent s.current_agent, s.providerCalls + r.2.2,
              s.dryTriggered, s.runError⟩
        else
          ⟨s.transcript, s.current_agent, s.providerCalls + r.2.2,
            s.dryTriggered,
            some ("JSON protocol validation failed after " ++ pyStrNat r.2.2 ++
              " attempts: " ++ joinSep " / " r.2.1)⟩

/-- A run either raises before the `try` block (no `finalize` at all) or
reaches the `finally` and finalizes exactly once with `"failed"` when an
error was raised inside the loop and `"success"` otherwise. -/
inductive RunOutcome where
  | earlyError (msg : String)
  | finalized (status : String) (dryFlag : Bool)
      (transcript : List TurnRecord) (providerCalls : Nat)
      (raised : Option String)
deriving DecidableEq

/-- `run_two_agent_dialogue`: argument checks and workdir resolution before
the `try` block, then the turn loop, then `finalize`. -/
def run_two_agent_dialogue (fs : FS)
    (out : Agent → Nat → Nat → Bool × List String) (user_request : String)
    (rounds : Nat) (start_agent : Agent) (project_path : Option String)
    (allowed_roots : List String) (dry_run : Bool) : RunOutcome :=
  if (stripChars user_request.data).isEmpty then
    .earlyError "user_request must be a non-empty string"
  else if rounds < 1 then .earlyError "rounds must be >= 1"
  else
    match resolve_workdir fs project_path user_request with
    | none =>
        .earlyError ("workdir must be explicitly specified via " ++
          "--project-path or as an absolute path in user_request")
    | some (workdir, _src) =>
        if !ensure_allowed_roots fs workdir allowed_roots then
          .earlyError ("project_path is outside allowed_roots: " ++ workdir)
        else if fs.pathExists workdir && !fs.isDir workdir then
          .earlyError ("project_path is not a directory: " ++ workdir)
        else
          let s := runTurnsAux out dry_run rounds 1
            ⟨[], start_agent, 0, false, none⟩
          match s.runError with
          | some e =>
              .finalized "failed" s.dryTriggered s.transcript s.providerCalls
                (some e)
          | none =>
              .finalized "success" s.dryTriggered s.transcript s.providerCalls
                none

theorem attemptLoop_count_le (out : Nat → Bool × List String) :
    ∀ fuel idx, (attemptLoop out idx fuel).2.2 ≤ idx + fuel := by
  intro fuel
  induction fuel with
  | zero => intro idx; simp [attemptLoop]
  | succ n ih =>
      intro idx
      cases n with
      | zero => simp [attemptLoop]
      | succ m =>
          rw [attemptLoop]
          by_cases h : (out idx).1 = true
          · simp [h]
          · simp only [Bool.not_eq_true] at h
            simp only [h, Bool.false_eq_true, if_false]
            have := ih (idx + 1)
            omega

/-- The transcript segment a run of `n` turns appends: one record per turn
while the final attempt of each turn ends error-free, stopping at the first
exhausted turn. -/
def successSeg (out : Agent → Nat → Nat → Bool × List String) :
    Nat → Nat → Agent → List TurnRecord
  | 0, _, _ => []
  | n + 1, turn, a =>
      let r := attemptLoop (out a turn) 0 (MAX_PROTOCOL_RETRY + 1)
      if r.2.1.isEmpty then
        ⟨turn, a, r.2.2⟩ :: successSeg out n (turn + 1) (next_agent a)
      else []

theorem runTurnsAux_transcript (out : Agent → Nat → Nat → Bool × List String) :
    ∀ (n turn : Nat) (s : RunState),
      (runTurnsAux out false n turn s).transcript =
        s.transcript ++ successSeg out n turn s.current_agent := by
  intro n
  induction n with
  | zero => intro turn s; simp [runTurnsAux, successSeg]
  | succ n ih =>
      intro turn s
      rw [runTurnsAux, successSeg.eq_def]
      by_cases h : (attemptLoop (out s.current_agent turn) 0
          (MAX_PROTOCOL_RETRY + 1)).2.1.isEmpty = true
      · simp only [h, if_true, Bool.false_eq_true, if_false]
        rw [ih]
        simp
      · simp only [Bool.not_eq_true] at h
        simp [h]

theorem successSeg_spec (out : Agent → Nat → Nat → Bool × List String) :
    ∀ (n turn : Nat) (a : Agent) (i : Nat) (r : TurnRecord),
      (successSeg out n turn a)[i]? = some r →
      r = ⟨turn + i, next_agent^[i] a,
          (attemptLoop (out (next_agent^[i] a) (turn + i)) 0
            (MAX_PROTOCOL_RETRY + 1)).2.2⟩ ∧
        (attemptLoop (out (next_agent^[i] a) (turn + i)) 0
          (MAX_PROTOCOL_RETRY + 1)).2.1 = [] := by
  intro n
  induction n with
  | zero => intro turn a i r hr; simp [successSeg] at hr
  | succ n ih =>
      intro turn a i r hr
      rw [successSeg.eq_def] at hr
      dsimp only at hr
      by_cases he : (attemptLoop (out a turn) 0
          (MAX_PROTOCOL_RETRY + 1)).2.1.isEmpty = true
      · simp only [he, if_true] at hr
        cases i with
        | zero =>
            simp only [List.getElem?_cons_zero, Option.some.injEq] at hr
            refine ⟨?_, ?_⟩
            · simp [hr.symm]
            · simp only [Function.iterate_zero, id_eq, Nat.add_zero]
              cases hl : (attemptLoop (out a turn) 0
                  (MAX_PROTOCOL_RETRY + 1)).2.1 with
              | nil => rfl
              | cons x t => rw [hl] at he; simp [List.isEmpty] at he
        | succ i =>
            simp only [List.getElem?_cons_succ] at hr
            have := ih (turn + 1) (next_agent a) i r hr
            have harith : turn + 1 + i = turn + (i + 1) := by omega
            have hiter : next_agent^[i] (next_agent a) = next_agent^[i + 1] a := by
              rw [Function.iterate_succ_apply]
            rw [harith, hiter] at this
            exact this
      · simp only [Bool.not_eq_true] at he
        simp [he] at hr

theorem successSeg_length_le (out : Agent → Nat → Nat → Bool × List String) :
    ∀ (n turn : Nat) (a : Agent), (successSeg out n turn a).length ≤ n := by
  intro n
  induction n with
  | zero => intro turn a; simp [successSeg]
  | succ n ih =>
      intro turn a
      rw [successSeg.eq_def]
      dsimp only
      by_cases he : (attemptLoop (out a turn) 0
          (MAX_PROTOCOL_RETRY + 1)).2.1.isEmpty = true
      · simp only [he, if_true, List.length_cons]
        have := ih (turn + 1) (next_agent a)
        omega
      · simp only [Bool.not_eq_true] at he
        simp [he]

/-- C4 (confirmed): in a non-dry run the transcript holds at most `rounds`
records; every record's agent follows the fixed DUFFY → LINA_BELL → STELLA
cycle from the start agent (each record's agent is `next` of the previous
record's agent), its turn number is its position, and a record exists only
for a turn whose final attempt ended with no protocol or safety errors —
with its stored attempt count. -/
theorem C4_transcript_invariants :
    ∀ (out : Agent → Nat → Nat → Bool × List String) (rounds : Nat)
      (a0 : Agent),
      (runTurnsAux out false rounds 1
          ⟨[], a0, 0, false, none⟩).transcript.length ≤ rounds ∧
      (∀ (i : Nat) (r : TurnRecord),
        (runTurnsAux out false rounds 1
            ⟨[], a0, 0, false, none⟩).transcript[i]? = some r →
        r.agent = next_agent^[i] a0 ∧ r.turn = 1 + i ∧
          (attemptLoop (out r.agent r.turn) 0
            (MAX_PROTOCOL_RETRY + 1)).2.1 = [] ∧
          r.attempts = (attemptLoop (out r.agent r.turn) 0
            (MAX_PROTOCOL_RETRY + 1)).2.2) ∧
      (∀ (i : Nat) (r r2 : TurnRecord),
        (runTurnsAux out false rounds 1
            ⟨[], a0, 0, false, none⟩).transcript[i]? = some r →
        (runTurnsAux out false rounds 1
            ⟨[], a0, 0, false, none⟩).transcript[i + 1]? = some r2 →
        r2.agent = next_agent r.agent) := by
  intro out rounds a0
  have ht : (runTurnsAux out false rounds 1
      ⟨[], a0, 0, false, none⟩).transcript = successSeg out rounds 1 a0 := by
    have := runTurnsAux_transcript out rounds 1 ⟨[], a0, 0, false, none⟩
    simpa using this
  refine ⟨?_, ?_, ?_⟩
  · rw [ht]
    exact successSeg_length_le out rounds 1 a0
  · intro i r hr
    rw [ht] at hr
    obtain ⟨h1, h2⟩ := successSeg_spec out rounds 1 a0 i r hr
    subst h1
    exact ⟨rfl, rfl, h2, rfl⟩
  · intro i r r2 hr hr2
    rw [ht] at hr hr2
    obtain ⟨h1, -⟩ := successSeg_spec out rounds 1 a0 i r hr
    obtain ⟨h2, -⟩ := successSeg_spec out rounds 1 a0 (i + 1) r2 hr2
    subst h1
    subst h2
    simp [Function.iterate_succ_apply']

/-- Witness for `C4_transcript_invariants` with an always-valid attempt
outcome over two rounds. -/
theorem C4_transcript_invariants_witness :
    ((⟨1, .duffy, 1⟩ : TurnRecord).agent = next_agent^[0] .duffy ∧
      (⟨1, .duffy, 1⟩ : TurnRecord).turn = 1 + 0 ∧
      (attemptLoop ((fun _ _ _ => (true, ([] : List String)))
          (⟨1, .duffy, 1⟩ : TurnRecord).agent
          (⟨1, .duffy, 1⟩ : TurnRecord).turn) 0
        (MAX_PROTOCOL_RETRY + 1)).2.1 = [] ∧
      (⟨1, .duffy, 1⟩ : TurnRecord).attempts =
        (attemptLoop ((fun _ _ _ => (true, ([] : List String)))
            (⟨1, .duffy, 1⟩ : TurnRecord).agent
            (⟨1, .duffy, 1⟩ : TurnRecord).turn) 0
          (MAX_PROTOCOL_RETRY + 1)).2.2) :=
  (C4_transcript_invariants (fun _ _ _ => (true, [])) 2 .duffy).2.1 0
    ⟨1, .duffy, 1⟩ (by decide)

/-- C5 (confirmed): a turn makes at most `MAX_PROTOCOL_RETRY + 1 = 4`
attempts; when the final attempt still carries errors, the turn loop stops
with one run-level failure whose message aggregates the final attempt's
error strings, and no turn record is appended. -/
theorem C5_retry_exhaustion :
    ∀ (out : Agent → Nat → Nat → Bool × List String) (a : Agent)
      (turn n : Nat) (s : RunState),
      (attemptLoop (out a turn) 0 (MAX_PROTOCOL_RETRY + 1)).2.2 ≤
          MAX_PROTOCOL_RETRY + 1 ∧
      ((attemptLoop (out s.current_agent turn) 0
          (MAX_PROTOCOL_RETRY + 1)).2.1 ≠ [] →
        runTurnsAux out false (n + 1) turn s =
          ⟨s.transcript, s.current_agent,
            s.providerCalls + (attemptLoop (out s.current_agent turn) 0
              (MAX_PROTOCOL_RETRY + 1)).2.2,
            s.dryTriggered,
            some ("JSON protocol validation failed after " ++
              pyStrNat (attemptLoop (out s.current_agent turn) 0
                (MAX_PROTOCOL_RETRY + 1)).2.2 ++
              " attempts: " ++
              joinSep " / " (attemptLoop (out s.current_agent turn) 0
                (MAX_PROTOCOL_RETRY + 1)).2.1)⟩) := by
  intro out a turn n s
  refine ⟨?_, ?_⟩
  · have := attemptLoop_count_le (out a turn) (MAX_PROTOCOL_RETRY + 1) 0
    omega
  · intro hne
    rw [runTurnsAux]
    have hemp : (attemptLoop (out s.current_agent turn) 0
        (MAX_PROTOCOL_RETRY + 1)).2.1.isEmpty = false := by
      cases hl : (attemptLoop (out s.current_agent turn) 0
          (MAX_PROTOCOL_RETRY + 1)).2.1 with
      | nil => exact absurd hl hne
      | cons x t => rfl
    simp [hemp]

/-- Witness for `C5_retry_exhaustion`: an attempt outcome that always fails
exhausts all four attempts and raises the aggregated message. -/
theorem C5_retry_exhaustion_witness :
    runTurnsAux (fun _ _ _ => (false, ["E_SCHEMA_MISSING_FIELD: x"])) false
        (0 + 1) 1 ⟨[], .duffy, 0, false, none⟩ =
      ⟨[], .duffy,
        0 + (attemptLoop ((fun _ _ _ =>
            (false, ["E_SCHEMA_MISSING_FIELD: x"]))
          (RunState.mk [] .duffy 0 false none).current_agent 1) 0
          (MAX_PROTOCOL_RETRY + 1)).2.2,
        false,
        some ("JSON protocol validation failed after " ++
          pyStrNat (attemptLoop ((fun _ _ _ =>
              (false, ["E_SCHEMA_MISSING_FIELD: x"]))
            (RunState.mk [] .duffy 0 false none).current_agent 1) 0
            (MAX_PROTOCOL_RETRY + 1)).2.2 ++
          " attempts: " ++
          joinSep " / " (attemptLoop ((fun _ _ _ =>
              (false, ["E_SCHEMA_MISSING_FIELD: x"]))
            (RunState.mk [] .duffy 0 false none).current_agent 1) 0
            (MAX_PROTOCOL_RETRY + 1)).2.1)⟩ :=
  (C5_retry_exhaustion (fun _ _ _ => (false, ["E_SCHEMA_MISSING_FIELD: x"]))
    .duffy 1 0 ⟨[], .duffy, 0, false, none⟩).2 (by decide)

/-- C6 (counterexample to the claim as stated): a dry run issues no
provider call and records nothing, but the summary is finalized with
status `"success"`, not `"dry_run"` — `finalize` receives `"failed"` or
`"success"` only; the dry run is marked by the separate `dry_run` summary
flag. -/
theorem C6_dry_run_counterexample :
    run_two_agent_dialogue ⟨fun _ => false, fun _ => false, fun _ => none⟩
        (fun _ _ _ => (true, [])) "hi" 2 .duffy (some "/work") [] true =
      .finalized "success" true [] 0 none ∧
    "success" ≠ "dry_run" :=
  ⟨rfl, by decide⟩

/-- C6 (corrected): whenever `run_two_agent_dialogue` passes its argument
and workdir checks with `dry_run = true`, it issues no provider call, exits
the turn loop in its first iteration with an empty transcript, and
finalizes exactly once — with status `"success"` and the `dry_run` flag
set, not with status `"dry_run"`. -/
theorem C6_dry_run :
    ∀ (fs : FS) (out : Agent → Nat → Nat → Bool × List String)
      (user_request : String) (rounds : Nat) (a0 : Agent)
      (pp : Option String) (roots : List String) (wd src : String),
      stripChars user_request.data ≠ [] → 1 ≤ rounds →
      resolve_workdir fs pp user_request = some (wd, src) →
      ensure_allowed_roots fs wd roots = true →
      (fs.pathExists wd && !fs.isDir wd) = false →
      run_two_agent_dialogue fs out user_request rounds a0 pp roots true =
        .finalized "success" true [] 0 none := by
  intro fs out user_request rounds a0 pp roots wd src hne hr hwd hroots hdir
  have hemp : (stripChars user_request.data).isEmpty = false := by
    cases h : stripChars user_request.data with
    | nil => exact absurd h hne
    | cons c t => rfl
  have hlt : ¬(rounds < 1) := by omega
  rw [run_two_agent_dialogue, hemp]
  simp only [Bool.false_eq_true, if_false, hlt, hwd]
  rw [hroots, hdir]
  simp only [Bool.not_true, Bool.and_false, Bool.false_eq_true, if_false]
  cases rounds with
  | zero => omega
  | succ n =>
      rw [runTurnsAux]
      simp
/-- Witness for `C6_dry_run` on a concrete world. -/
theorem C6_dry_run_witness :
    run_two_agent_dialogue ⟨fun _ => false, fun _ => false, fun _ => none⟩
        (fun _ _ _ => (false, ["E"])) "hello" 3 .stella (some "/p") [] true =
      .finalized "success" true [] 0 none :=
  C6_dry_run ⟨fun _ => false, fun _ => false, fun _ => none⟩
    (fun _ _ _ => (false, ["E"])) "hello" 3 .stella (some "/p") [] "/p"
    "project_path_arg" (by decide) (by decide) (by decide) (by decide)
    (by decide)

/-- C10 (confirmed): with `project_path = None` and a user request from
which no absolute-path candidate qualifies (none names an existing
directory or a child of one), the run raises the missing-workdir
`ValueError` before the `try` block: no turn, no provider call, no
transcript, no `finalize` — the current working directory is never used. -/
theorem C10_missing_workdir :
    ∀ (fs : FS) (out : Agent → Nat → Nat → Bool × List String)
      (user_request : String) (rounds : Nat) (a0 : Agent)
      (roots : List String) (dry : Bool),
      stripChars user_request.data ≠ [] → 1 ≤ rounds →
      extract_requested_workdir fs user_request = none →
      run_two_agent_dialogue fs out user_request rounds a0 none roots dry =
        .earlyError ("workdir must be explicitly specified via " ++
          "--project-path or as an absolute path in user_request") := by
  intro fs out user_request rounds a0 roots dry hne hr hext
  have hemp : (stripChars user_request.data).isEmpty = false := by
    cases h : stripChars user_request.data with
    | nil => exact absurd h hne
    | cons c t => rfl
  have hlt : ¬(rounds < 1) := by omega
  rw [run_two_agent_dialogue, hemp]
  simp only [Bool.false_eq_true, if_false, hlt]
  rw [show resolve_workdir fs none user_request = none by
    rw [resolve_workdir, hext]]

/-- Witness for `C10_missing_workdir`: a request with no path-like text on
an empty filesystem. -/
theorem C10_missing_workdir_witness :
    run_two_agent_dialogue ⟨fun _ => false, fun _ => false, fun _ => none⟩
        (fun _ _ _ => (true, [])) "please add a feature" 4 .duffy none []
        false =
      .earlyError ("workdir must be explicitly specified via " ++
        "--project-path or as an absolute path in user_request") :=
  C10_missing_workdir ⟨fun _ => false, fun _ => false, fun _ => none⟩
    (fun _ _ _ => (true, [])) "please add a feature" 4 .duffy [] false
    (by decide) (by decide) (by decide)

theorem startsWithChars_append (p q : List Char) :
    startsWithChars p (p ++ q) = true := by
  simp [startsWithChars, List.take_append_of_le_length]

theorem cwe_all_prefixed (fs : FS) (tok : String → List String) (wd : String)
    (cmds : List String) :
    ∀ e ∈ command_workdir_errors fs tok wd cmds,
      startsWithChars ("E_WORKDIR_COMMAND_OUTSIDE: ".data) e.data = true := by
  intro e he
  rw [command_workdir_errors] at he
  obtain ⟨l, hl, hel⟩ := List.mem_flatten.mp he
  obtain ⟨cmd, hcmd, hfl⟩ := List.mem_map.mp hl
  by_cases hout : ((extract_absolute_paths_from_command tok cmd).filter
      (fun raw =>
        match fs.resolve raw with
        | none => false
        | some _ => !path_within fs raw wd)).isEmpty = true
  · rw [← hfl] at hel
    simp only [hout, if_true] at hel
    cases hel
  · rw [← hfl] at hel
    simp only [Bool.not_eq_true] at hout
    simp only [hout, Bool.false_eq_true, if_false, List.mem_singleton] at hel
    subst hel
    have : ("E_WORKDIR_COMMAND_OUTSIDE: " ++
        joinSep ", " (sortStrings (dedupStrings
          ((extract_absolute_paths_from_command tok cmd).filter
            (fun raw =>
              match fs.resolve raw with
              | none => false
              | some _ => !path_within fs raw wd)))) ++
        " | cmd=" ++ cmd).data =
        "E_WORKDIR_COMMAND_OUTSIDE: ".data ++
          (joinSep ", " (sortStrings (dedupStrings
            ((extract_absolute_paths_from_command tok cmd).filter
              (fun raw =>
                match fs.resolve raw with
                | none => false
                | some _ => !path_within fs raw wd)))) ++
          " | cmd=" ++ cmd).data := by
      simp [String.data_append]
    rw [this]
    exact startsWithChars_append _ _

theorem attemptGate_policy_reject (fs : FS) (reS : String → String → Bool)
    (tok : String → List String) (allow deny : List String) (wd : String)
    (agent : Agent) (rm : String) (ro : Bool) (vd : JObj → List String)
    (errors0 : List String) (content : JObj)
    (hpol : (command_policy_errors reS allow deny
      (collect_commands content agent)).isEmpty = false) :
    attemptGate fs reS tok allow deny wd agent rm ro vd true errors0
        (some content) =
      (false, errors0 ++ command_policy_errors reS allow deny
        (collect_commands content agent)) := by
  rw [attemptGate.eq_def]
  dsimp only
  rw [hpol]
  simp

theorem attemptGate_workdir_reject (fs : FS) (reS : String → String → Bool)
    (tok : String → List String) (allow deny : List String) (wd : String)
    (agent : Agent) (rm : String) (ro : Bool) (vd : JObj → List String)
    (errors0 : List String) (content : JObj)
    (hag : (decide (agent = Agent.linabell) ||
      decide (agent = Agent.stella)) = true)
    (hpol : (command_policy_errors reS allow deny
      (collect_commands content agent)).isEmpty = true)
    (hwe : (command_workdir_errors fs tok wd
      (collect_commands content agent)).isEmpty = false) :
    attemptGate fs reS tok allow deny wd agent rm ro vd true errors0
        (some content) =
      (false, errors0 ++ command_workdir_errors fs tok wd
        (collect_commands content agent)) := by
  rw [attemptGate.eq_def]
  dsimp only
  rw [hpol, hag, hwe]
  simp

theorem cwe_nonempty_of_outside (fs : FS) (tok : String → List String)
    (wd : String) (cmds : List String) (cmd raw : String)
    (hcmd : cmd ∈ cmds)
    (hraw : raw ∈ extract_absolute_paths_from_command tok cmd)
    (hres : (fs.resolve raw).isSome = true)
    (hwithin : path_within fs raw wd = false) :
    command_workdir_errors fs tok wd cmds ≠ [] := by
  intro hnil
  have hpred : (match fs.resolve raw with
      | none => false
      | some _ => !path_within fs raw wd) = true := by
    cases h : fs.resolve raw with
    | none => rw [h] at hres; simp at hres
    | some v => simp [hwithin]
  have hmem : raw ∈ (extract_absolute_paths_from_command tok cmd).filter
      (fun raw =>
        match fs.resolve raw with
        | none => false
        | some _ => !path_within fs raw wd) :=
    List.mem_filter.mpr ⟨hraw, hpred⟩
  have hfe : ((extract_absolute_paths_from_command tok cmd).filter
      (fun raw =>
        match fs.resolve raw with
        | none => false
        | some _ => !path_within fs raw wd)).isEmpty = false := by
    cases hf : (extract_absolute_paths_from_command tok cmd).filter
        (fun raw =>
          match fs.resolve raw with
          | none => false
          | some _ => !path_within fs raw wd) with
    | nil => rw [hf] at hmem; cases hmem
    | cons x t => rfl
  have hmsg : ("E_WORKDIR_COMMAND_OUTSIDE: " ++
        joinSep ", " (sortStrings (dedupStrings
          ((extract_absolute_paths_from_command tok cmd).filter
            (fun raw =>
              match fs.resolve raw with
              | none => false
              | some _ => !path_within fs raw wd)))) ++
        " | cmd=" ++ cmd) ∈ command_workdir_errors fs tok wd cmds := by
    rw [command_workdir_errors]
    refine List.mem_flatten.mpr ⟨_, List.mem_map.mpr ⟨cmd, hcmd, rfl⟩, ?_⟩
    simp only [hfe, Bool.false_eq_true, if_false, List.mem_singleton]
  rw [hnil] at hmsg
  cases hmsg

theorem attemptGate_accept_within (fs : FS) (reS : String → String → Bool)
    (tok : String → List String) (allow deny : List String) (wd : String)
    (agent : Agent) (rm : String) (ro : Bool) (vd : JObj → List String)
    (errors0 : List String) (content : JObj)
    (hag : (decide (agent = Agent.linabell) ||
      decide (agent = Agent.stella)) = true)
    (hacc : (attemptGate fs reS tok allow deny wd agent rm ro vd true errors0
      (some content)).1 = true) :
    ∀ cmd ∈ collect_commands content agent,
      ∀ raw ∈ extract_absolute_paths_from_command tok cmd,
        (fs.resolve raw).isSome = true → path_within fs raw wd = true := by
  by_cases hpol : (command_policy_errors reS allow deny
      (collect_commands content agent)).isEmpty = true
  · by_cases hwe : (command_workdir_errors fs tok wd
        (collect_commands content agent)).isEmpty = true
    · intro cmd hcmd raw hraw hres
      by_contra hwithin
      have hw : path_within fs raw wd = false := by
        cases h : path_within fs raw wd with
        | false => rfl
        | true => exact absurd h hwithin
      have hne := cwe_nonempty_of_outside fs tok wd
        (collect_commands content agent) cmd raw hcmd hraw hres hw
      have hnil : command_workdir_errors fs tok wd
          (collect_commands content agent) = [] := by
        cases h : command_workdir_errors fs tok wd
            (collect_commands content agent) with
        | nil => rfl
        | cons x t => rw [h] at hwe; simp [List.isEmpty] at hwe
      exact absurd hnil hne
    · have hwe2 : (command_workdir_errors fs tok wd
          (collect_commands content agent)).isEmpty = false := by
        cases h : (command_workdir_errors fs tok wd
            (collect_commands content agent)).isEmpty with
        | false => rfl
        | true => exact absurd h hwe
      rw [attemptGate_workdir_reject fs reS tok allow deny wd agent rm ro vd
        errors0 content hag hpol hwe2] at hacc
      cases hacc
  · have hpol2 : (command_policy_errors reS allow deny
        (collect_commands content agent)).isEmpty = false := by
      cases h : (command_policy_errors reS allow deny
          (collect_commands content agent)).isEmpty with
      | false => rfl
      | true => exact absurd h hpol
    rw [attemptGate_policy_reject fs reS tok allow deny wd agent rm ro vd
      errors0 content hpol2] at hacc
    cases hacc

/-- A filesystem where only `/work` and `/etc/passwd` resolve. -/
def fsC1 : FS :=
  ⟨fun _ => true, fun _ => true,
    fun s => if s = "/work" then some ["work"]
      else if s = "/etc/passwd" then some ["etc", "passwd"]
      else if s = "/work/a.py" then some ["work", "a.py"]
      else none⟩

/-- Whitespace tokenization (what `shlex.split` does on quote-free
commands). -/
def tokenizeWs : String → List String := fun c => splitWs c.data

/-- Literal-substring search (what `re.search` does on metacharacter-free
patterns such as `"rm"`). -/
def reSubstring : String → String → Bool := fun pat text => pyContains text pat

/-- A delivery payload whose only evidence command is `rm /etc/passwd`. -/
def contentC1 : JObj :=
  .cons "result" (.jobj (.cons "execution_evidence"
    (.jarr (.cons (.jobj (.cons "command" (.jstr "rm /etc/passwd") .nil))
      .nil)) .nil)) .nil

/-- C1 (counterexample to the claim as stated): with denylist `["rm"]` and
workdir `/work`, the command `rm /etc/passwd` carries the absolute token
`/etc/passwd`, which resolves outside the workdir — yet the gate emits only
`E_SAFETY_COMMAND_DENIED` and never an `E_WORKDIR_COMMAND_OUTSIDE` error:
the policy rejection clears `is_valid`, so the workdir check is skipped
entirely. -/
theorem C1_workdir_gate_counterexample :
    attemptGate fsC1 reSubstring tokenizeWs [] ["rm"] "/work" .linabell
        "execute" false (fun _ => []) true [] (some contentC1) =
      (false, ["E_SAFETY_COMMAND_DENIED: rm /etc/passwd"]) ∧
    "/etc/passwd" ∈
      extract_absolute_paths_from_command tokenizeWs "rm /etc/passwd" ∧
    (fsC1.resolve "/etc/passwd").isSome = true ∧
    path_within fsC1 "/etc/passwd" "/work" = false ∧
    (∀ e ∈ ["E_SAFETY_COMMAND_DENIED: rm /etc/passwd"],
      startsWithChars ("E_WORKDIR_COMMAND_OUTSIDE".data) e.data = false) :=
  ⟨by decide, by decide, by decide, by decide, by decide⟩

/-- C1 (corrected): (i) a delivery or review payload the gate accepts has
every resolvable absolute token of every collected command inside the
workdir; (ii) when no command-policy error fires first, an absolute token
resolving outside the workdir makes the gate reject the payload with the
`E_WORKDIR_COMMAND_OUTSIDE`-prefixed errors (the claim's unconditional
"whenever" fails: a policy error preempts the workdir check, see the
counterexample); (iii) a turn whose final attempt carries errors appends no
turn record. -/
theorem C1_workdir_gate :
    (∀ (fs : FS) (reS : String → String → Bool) (tok : String → List String)
      (allow deny : List String) (wd : String) (agent : Agent) (rm : String)
      (ro : Bool) (vd : JObj → List String) (errors0 : List String)
      (content : JObj),
      (agent = .linabell ∨ agent = .stella) →
      (attemptGate fs reS tok allow deny wd agent rm ro vd true errors0
        (some content)).1 = true →
      ∀ cmd ∈ collect_commands content agent,
        ∀ raw ∈ extract_absolute_paths_from_command tok cmd,
          (fs.resolve raw).isSome = true → path_within fs raw wd = true) ∧
    (∀ (fs : FS) (reS : String → String → Bool) (tok : String → List String)
      (allow deny : List String) (wd : String) (agent : Agent) (rm : String)
      (ro : Bool) (vd : JObj → List String) (content : JObj)
      (cmd raw : String),
      (agent = .linabell ∨ agent = .stella) →
      command_policy_errors reS allow deny
        (collect_commands content agent) = [] →
      cmd ∈ collect_commands content agent →
      raw ∈ extract_absolute_paths_from_command tok cmd →
      (fs.resolve raw).isSome = true → path_within fs raw wd = false →
      attemptGate fs reS tok allow deny wd agent rm ro vd true []
          (some content) =
        (false, command_workdir_errors fs tok wd
          (collect_commands content agent)) ∧
      command_workdir_errors fs tok wd (collect_commands content agent) ≠ [] ∧
      (∀ e ∈ command_workdir_errors fs tok wd
          (collect_commands content agent),
        startsWithChars ("E_WORKDIR_COMMAND_OUTSIDE: ".data) e.data = true)) ∧
    (∀ (out : Agent → Nat → Nat → Bool × List String) (n turn : Nat)
      (s : RunState),
      (attemptLoop (out s.current_agent turn) 0
        (MAX_PROTOCOL_RETRY + 1)).2.1 ≠ [] →
      (runTurnsAux out false (n + 1) turn s).transcript = s.transcript) := by
  refine ⟨?_, ?_, ?_⟩
  · intro fs reS tok allow deny wd agent rm ro vd errors0 content hag hacc
    have hag2 : (decide (agent = Agent.linabell) ||
        decide (agent = Agent.stella)) = true := by
      rcases hag with h | h <;> subst h <;> decide
    exact attemptGate_accept_within fs reS tok allow deny wd agent rm ro vd
      errors0 content hag2 hacc
  · intro fs reS tok allow deny wd agent rm ro vd content cmd raw hag hpol
      hcmd hraw hres hwithin
    have hag2 : (decide (agent = Agent.linabell) ||
        decide (agent = Agent.stella)) = true := by
      rcases hag with h | h <;> subst h <;> decide
    have hne := cwe_nonempty_of_outside fs tok wd
      (collect_commands content agent) cmd raw hcmd hraw hres hwithin
    have hwe : (command_workdir_errors fs tok wd
        (collect_commands content agent)).isEmpty = false := by
      cases h : command_workdir_errors fs tok wd
          (collect_commands content agent) with
      | nil => exact absurd h hne
      | cons x t => rfl
    refine ⟨?_, hne, cwe_all_prefixed fs tok wd
      (collect_commands content agent)⟩
    have := attemptGate_workdir_reject fs reS tok allow deny wd agent rm ro vd
      [] content hag2 (by rw [hpol]; rfl) hwe
    simpa using this
  · intro out n turn s hne
    rw [runTurnsAux]
    have hemp : (attemptLoop (out s.current_agent turn) 0
        (MAX_PROTOCOL_RETRY + 1)).2.1.isEmpty = false := by
      cases hl : (attemptLoop (out s.current_agent turn) 0
          (MAX_PROTOCOL_RETRY + 1)).2.1 with
      | nil => exact absurd hl hne
      | cons x t => rfl
    simp [hemp]

/-- Witness for `C1_workdir_gate`: an accepted review-style payload whose
only absolute token `/work/a.py` resolves inside the workdir `/work`. -/
theorem C1_workdir_gate_witness :
    path_within fsC1 "/work/a.py" "/work" = true :=
  C1_workdir_gate.1 fsC1 reSubstring tokenizeWs [] [] "/work" .linabell
    "text_only" false (fun _ => [])
    []
    (.cons "result" (.jobj (.cons "execution_evidence"
      (.jarr (.cons (.jobj (.cons "command" (.jstr "python /work/a.py") .nil))
        .nil)) .nil)) .nil)
    (Or.inl rfl) (by decide) "python /work/a.py" (by decide) "/work/a.py"
    (by decide) (by decide)
